import Mathlib

/-!
Verification of the custodial multi-chain wallet backend core
(envelope encryption, multi-factor authentication, per-chain
transaction construction) against its natural-language specification.

The JavaScript source is shallowly embedded: Buffers become `List Nat`
of byte values, fallible functions return `Except`, Mongo documents
become structures, and the external cryptographic primitives from
Node's crypto / bcrypt / otplib libraries are modelled either as
explicit function parameters (so the theorems hold for every
implementation of the primitive) or as concrete deterministic Lean
functions realizing the primitive's documented interface (an ideal
AEAD cipher for AES-256-GCM, an ideal MAC for its authentication tag).
-/

/-! ## Envelope cipher (src/unnamed/part_004, second file: utils/encrypt.js)

Constants from the source: SALT_LENGTH = 64, IV_LENGTH = 16,
AUTH_TAG_LENGTH = 16, KEY_LENGTH = 32, AAD = "crypto-wallet".

`encrypt` generates a random salt and iv per call (modelled as explicit
arguments), derives a key via PBKDF2(masterKey, salt), encrypts with
AES-256-GCM via Node's createCipher (which derives its working key
deterministically from the passed key; the generated iv is stored in the
blob but not consumed by createCipher), and emits
salt ‖ iv ‖ authTag ‖ ciphertext.  The base64 wire encoding, a bijection
on byte lists performed by Buffer.toString/Buffer.from, is omitted: the
model works on the decoded byte level at which the blob regions
(salt/iv/tag/ciphertext) of the specification are defined.

PBKDF2 and the AES-GCM keystream/tag are external primitives; they are
realized here by concrete deterministic functions with the properties
the primitives guarantee: the key derivation is a deterministic function
of (masterKey, salt); the cipher is a length-preserving keystream
encryption invertible under the same key; the 16-byte authentication
tag is a MAC binding key, associated data and ciphertext, modelled
ideally so that distinct ciphertexts of equal length yield distinct tags
(the guarantee GCM provides computationally). -/

/-- SALT_LENGTH constant (64 bytes). -/
def SALT_LENGTH : Nat := 64

/-- IV_LENGTH constant (16 bytes). -/
def IV_LENGTH : Nat := 16

/-- AUTH_TAG_LENGTH constant (16 bytes). -/
def AUTH_TAG_LENGTH : Nat := 16

/-- The fixed associated data `Buffer.from('crypto-wallet', 'utf8')`. -/
def aadBytes : List Nat := [99, 114, 121, 112, 116, 111, 45, 119, 97, 108, 108, 101, 116]

/-- Big-endian base-257 value of a byte list; injective on equal-length
lists of bytes < 257, used by the ideal MAC model. -/
def bytePoly (l : List Nat) : Nat :=
  l.foldl (fun a b => a * 257 + b) 0

/-- PBKDF2-SHA512 (100000 iterations) modelled as a concrete
deterministic function of the master key and the salt. -/
def deriveKey (masterKey salt : List Nat) : Nat :=
  bytePoly (masterKey ++ 256 :: salt)

/-- Keystream byte `i` of the ideal cipher keyed by `key`. -/
def ksByte (key i : Nat) : Nat := (key + i) % 256

/-- Ideal AEAD encryption pass: byte-wise keystream addition mod 256
(position argument `i` is the running index). -/
def gcmEnc (key : Nat) : Nat → List Nat → List Nat
  | _, [] => []
  | i, b :: rest => (b + ksByte key i) % 256 :: gcmEnc key (i + 1) rest

/-- Ideal AEAD decryption pass, inverse of `gcmEnc` under the same key. -/
def gcmDec (key : Nat) : Nat → List Nat → List Nat
  | _, [] => []
  | i, b :: rest => (b + 256 - ksByte key i) % 256 :: gcmDec key (i + 1) rest

/-- The 128-bit value of the ideal authentication tag over key,
associated data and ciphertext. -/
def gcmTagVal (key : Nat) (ct : List Nat) : Nat :=
  (key + bytePoly aadBytes + bytePoly ct) % 2 ^ 128

/-- Big-endian 16-byte encoding of a value < 2^128. -/
def natToBytes : Nat → Nat → List Nat
  | 0, _ => []
  | n + 1, v => v / 256 ^ n :: natToBytes n (v % 256 ^ n)

/-- The 16-byte authentication tag produced by `cipher.getAuthTag()`. -/
def gcmTag (key : Nat) (ct : List Nat) : List Nat :=
  natToBytes 16 (gcmTagVal key ct)

/-- Error raised by the envelope cipher (the source wraps all failures
in `Encryption failed: ...` / `Decryption failed: ...` messages). -/
inductive CryptoError where
  | emptyInput : CryptoError
  | invalidKey : CryptoError
  | authFailed : CryptoError
  deriving DecidableEq, Repr

/-- `encrypt(text)` of utils/encrypt.js: rejects empty input and a
master key shorter than 32, derives the per-call key from the fresh
salt, encrypts with the AEAD cipher, and returns
salt ‖ iv ‖ authTag ‖ ciphertext. -/
def encrypt (masterKey salt iv text : List Nat) : Except CryptoError (List Nat) :=
  if text.isEmpty then .error .emptyInput
  else if masterKey.length < 32 then .error .invalidKey
  else
    let key := deriveKey masterKey salt
    let ct := gcmEnc key 0 text
    let tag := gcmTag key ct
    .ok (salt ++ iv ++ tag ++ ct)

/-- `decrypt(encryptedData)` of utils/encrypt.js: rejects empty input
and a short master key, splits the blob at the fixed offsets
(salt 0..64, iv 64..80, authTag 80..96, ciphertext 96..), re-derives the
key from the embedded salt, verifies the authentication tag and fails
closed on mismatch, otherwise returns the decrypted bytes. -/
def decrypt (masterKey blob : List Nat) : Except CryptoError (List Nat) :=
  if blob.isEmpty then .error .emptyInput
  else if masterKey.length < 32 then .error .invalidKey
  else
    let salt := blob.take SALT_LENGTH
    let tag := (blob.drop (SALT_LENGTH + IV_LENGTH)).take AUTH_TAG_LENGTH
    let ct := blob.drop (SALT_LENGTH + IV_LENGTH + AUTH_TAG_LENGTH)
    let key := deriveKey masterKey salt
    if gcmTag key ct = tag then .ok (gcmDec key 0 ct) else .error .authFailed

/-! ### Cipher lemmas -/

theorem gcmEnc_length (key : Nat) : ∀ (i : Nat) (l : List Nat),
    (gcmEnc key i l).length = l.length := by
  intro i l
  induction l generalizing i with
  | nil => rfl
  | cons b rest ih => simp [gcmEnc, ih]

theorem gcmDec_gcmEnc (key : Nat) : ∀ (i : Nat) (l : List Nat),
    (∀ b ∈ l, b < 256) → gcmDec key i (gcmEnc key i l) = l := by
  intro i l
  induction l generalizing i with
  | nil => intro _; rfl
  | cons b rest ih =>
    intro h
    have hb : b < 256 := h b (by simp)
    have hks : ksByte key i < 256 := Nat.mod_lt _ (by norm_num)
    simp only [gcmEnc, gcmDec, List.cons.injEq]
    constructor
    · omega
    · exact ih (i + 1) (fun x hx => h x (by simp [hx]))

theorem gcmEnc_lt (key : Nat) : ∀ (i : Nat) (l : List Nat),
    ∀ b ∈ gcmEnc key i l, b < 256 := by
  intro i l
  induction l generalizing i with
  | nil =>
    intro x hx
    simp only [gcmEnc, List.not_mem_nil] at hx
  | cons b rest ih =>
    intro x hx
    simp only [gcmEnc, List.mem_cons] at hx
    rcases hx with h | h
    · subst h; exact Nat.mod_lt _ (by norm_num)
    · exact ih (i + 1) x h

theorem bytePoly_foldl (z : List Nat) : ∀ a : Nat,
    z.foldl (fun a b => a * 257 + b) a = a * 257 ^ z.length + bytePoly z := by
  induction z with
  | nil => intro a; simp [bytePoly]
  | cons c z ih =>
    intro a
    simp only [List.foldl_cons, List.length_cons]
    rw [ih (a * 257 + c)]
    have h2 : bytePoly (c :: z) = c * 257 ^ z.length + bytePoly z := by
      show List.foldl (fun a b => a * 257 + b) (0 * 257 + c) z = _
      rw [show 0 * 257 + c = c from by ring, ih c]
    rw [h2, pow_succ]
    ring

theorem bytePoly_append (x z : List Nat) :
    bytePoly (x ++ z) = bytePoly x * 257 ^ z.length + bytePoly z := by
  simp only [bytePoly, List.foldl_append]
  exact bytePoly_foldl z _

theorem bytePoly_mid_ne (x z : List Nat) (a b : Nat) (hb : b < 256) (hlt : a < b) :
    bytePoly (x ++ a :: z) % 2 ^ 128 ≠ bytePoly (x ++ b :: z) % 2 ^ 128 := by
  intro h
  have e1 : bytePoly (x ++ a :: z) =
      (bytePoly x * 257 + a) * 257 ^ z.length + bytePoly z := by
    rw [show x ++ a :: z = (x ++ [a]) ++ z from by simp, bytePoly_append,
      bytePoly_append]
    have ha1 : bytePoly [a] = a := by simp [bytePoly]
    simp [ha1]
  have e2 : bytePoly (x ++ b :: z) =
      (bytePoly x * 257 + b) * 257 ^ z.length + bytePoly z := by
    rw [show x ++ b :: z = (x ++ [b]) ++ z from by simp, bytePoly_append,
      bytePoly_append]
    have hb1 : bytePoly [b] = b := by simp [bytePoly]
    simp [hb1]
  have hexp : (bytePoly x * 257 + b) * 257 ^ z.length
      = (bytePoly x * 257 + a) * 257 ^ z.length + (b - a) * 257 ^ z.length := by
    have hsplit : bytePoly x * 257 + b = bytePoly x * 257 + a + (b - a) := by omega
    rw [hsplit, Nat.add_mul]
  have hle : bytePoly (x ++ a :: z) ≤ bytePoly (x ++ b :: z) := by
    rw [e1, e2, hexp]; omega
  have hdiff : bytePoly (x ++ b :: z) - bytePoly (x ++ a :: z) =
      (b - a) * 257 ^ z.length := by
    rw [e1, e2, hexp]; omega
  have hmod : Nat.ModEq (2 ^ 128) (bytePoly (x ++ a :: z)) (bytePoly (x ++ b :: z)) := h
  have hdvd : 2 ^ 128 ∣ (b - a) * 257 ^ z.length := by
    have hd := (Nat.modEq_iff_dvd' hle).mp hmod
    rwa [hdiff] at hd
  have hcop : Nat.Coprime (2 ^ 128) (257 ^ z.length) :=
    Nat.Coprime.pow 128 z.length (by decide)
  have hdvd2 : 2 ^ 128 ∣ b - a := hcop.dvd_of_dvd_mul_right hdvd
  have hle2 : 2 ^ 128 ≤ b - a := Nat.le_of_dvd (by omega) hdvd2
  have h256 : (256 : Nat) ≤ 2 ^ 128 := by norm_num
  omega

/-- A single in-range byte change at a fixed position changes the
base-257 value even after reduction mod 2^128. -/
theorem bytePoly_set_ne (x z : List Nat) (a b : Nat) (ha : a < 256) (hb : b < 256)
    (hab : a ≠ b) :
    bytePoly (x ++ a :: z) % 2 ^ 128 ≠ bytePoly (x ++ b :: z) % 2 ^ 128 := by
  rcases Nat.lt_or_ge a b with hlt | hge
  · exact bytePoly_mid_ne x z a b hb hlt
  · have hlt : b < a := by omega
    exact (bytePoly_mid_ne x z b a ha hlt).symm

theorem natToBytes_length : ∀ (n v : Nat), (natToBytes n v).length = n := by
  intro n
  induction n with
  | zero => intro v; rfl
  | succ n ih => intro v; simp [natToBytes, ih]

theorem natToBytes_inj : ∀ (n v w : Nat), v < 256 ^ n → w < 256 ^ n →
    natToBytes n v = natToBytes n w → v = w := by
  intro n
  induction n with
  | zero =>
    intro v w hv hw _
    simp only [pow_zero, Nat.lt_one_iff] at hv hw
    omega
  | succ n ih =>
    intro v w hv hw h
    simp only [natToBytes, List.cons.injEq] at h
    have hmv : v % 256 ^ n < 256 ^ n := Nat.mod_lt _ (Nat.pos_pow_of_pos n (by norm_num))
    have hmw : w % 256 ^ n < 256 ^ n := Nat.mod_lt _ (Nat.pos_pow_of_pos n (by norm_num))
    obtain ⟨hhead, htl⟩ := h
    have htail := ih _ _ hmv hmw htl
    have hv2 := Nat.div_add_mod v (256 ^ n)
    have hw2 := Nat.div_add_mod w (256 ^ n)
    rw [hhead, htail] at hv2
    omega

/-- Splitting an encrypted blob at the fixed offsets recovers its
components. -/
theorem blob_parse (salt iv tag ct : List Nat)
    (h1 : salt.length = 64) (h2 : iv.length = 16) (h3 : tag.length = 16) :
    (salt ++ iv ++ tag ++ ct).take 64 = salt ∧
    ((salt ++ iv ++ tag ++ ct).drop 80).take 16 = tag ∧
    (salt ++ iv ++ tag ++ ct).drop 96 = ct := by
  have e80 : (salt ++ iv).length = 80 := by simp [h1, h2]
  have e96 : (salt ++ iv ++ tag).length = 96 := by simp [h1, h2, h3]
  refine ⟨?_, ?_, ?_⟩
  · rw [show salt ++ iv ++ tag ++ ct = salt ++ (iv ++ (tag ++ ct)) from by simp]
    exact List.take_left' h1
  · rw [show salt ++ iv ++ tag ++ ct = (salt ++ iv) ++ (tag ++ ct) from by simp,
      List.drop_left' e80]
    exact List.take_left' h3
  · rw [show salt ++ iv ++ tag ++ ct = (salt ++ iv ++ tag) ++ ct from by simp,
      List.drop_left' e96]

/-- C1: For every string `s` (with a well-formed master key, a 64-byte
salt and a 16-byte IV), `decrypt(encrypt(s))` returns `s`; and two
calls of `encrypt` on the same `s` with distinct fresh salts produce
different ciphertext blobs (salt/IV freshness: the per-call random salt
is embedded in the blob, so independently drawn randomness yields
distinct outputs). -/
theorem encrypt_decrypt_roundtrip_fresh
    (mk salt iv text salt2 iv2 : List Nat)
    (hmk : 32 ≤ mk.length) (hs : salt.length = 64) (hi : iv.length = 16)
    (ht : text ≠ []) (htb : ∀ b ∈ text, b < 256)
    (hs2 : salt2.length = 64) (hfresh : salt ≠ salt2) :
    (∃ blob, encrypt mk salt iv text = .ok blob ∧ decrypt mk blob = .ok text) ∧
    (∀ blob blob2, encrypt mk salt iv text = .ok blob →
      encrypt mk salt2 iv2 text = .ok blob2 → blob ≠ blob2) := by
  have hte : text.isEmpty = false := by
    cases text with
    | nil => exact absurd rfl ht
    | cons a l => rfl
  have hmk2 : ¬ mk.length < 32 := by omega
  constructor
  · refine ⟨salt ++ iv ++ gcmTag (deriveKey mk salt) (gcmEnc (deriveKey mk salt) 0 text)
      ++ gcmEnc (deriveKey mk salt) 0 text, ?_, ?_⟩
    · simp [encrypt, hte, hmk2]
    · set key := deriveKey mk salt with hkey
      set ct := gcmEnc key 0 text with hct
      set tag := gcmTag key ct with htag
      have htagl : tag.length = 16 := natToBytes_length _ _
      have hparse := blob_parse salt iv tag ct hs hi htagl
      have hne : (salt ++ iv ++ tag ++ ct).isEmpty = false := by
        cases h : salt ++ iv ++ tag ++ ct with
        | nil => rw [← List.length_eq_zero] at h; simp [hs, hi, htagl] at h
        | cons a l => rfl
      simp only [encrypt, hte, Bool.false_eq_true, if_false, hmk2, decrypt, hne,
        SALT_LENGTH, IV_LENGTH, AUTH_TAG_LENGTH]
      rw [hparse.1, hparse.2.1, hparse.2.2]
      rw [if_pos rfl]
      exact congrArg Except.ok (gcmDec_gcmEnc key 0 text htb)
  · intro blob blob2 h1 h2
    simp only [encrypt, hte, Bool.false_eq_true, if_false, hmk2, Except.ok.injEq] at h1 h2
    intro hcontra
    apply hfresh
    have e1 : blob.take 64 = salt := by
      rw [← h1, show salt ++ iv ++ gcmTag (deriveKey mk salt) (gcmEnc (deriveKey mk salt) 0 text)
          ++ gcmEnc (deriveKey mk salt) 0 text
          = salt ++ (iv ++ (gcmTag (deriveKey mk salt) (gcmEnc (deriveKey mk salt) 0 text)
          ++ gcmEnc (deriveKey mk salt) 0 text)) from by simp]
      exact List.take_left' hs
    have e2 : blob2.take 64 = salt2 := by
      rw [← h2, show salt2 ++ iv2 ++ gcmTag (deriveKey mk salt2) (gcmEnc (deriveKey mk salt2) 0 text)
          ++ gcmEnc (deriveKey mk salt2) 0 text
          = salt2 ++ (iv2 ++ (gcmTag (deriveKey mk salt2) (gcmEnc (deriveKey mk salt2) 0 text)
          ++ gcmEnc (deriveKey mk salt2) 0 text)) from by simp]
      exact List.take_left' hs2
    rw [← e1, ← e2, hcontra]

theorem list_set_getElem_self (l : List Nat) (n : Nat) (h : n < l.length) :
    l.set n l[n] = l := by
  apply List.ext_getElem <;> simp
  intro i h1 h2
  by_cases hin : i = n
  · subst hin; simp
  · rw [List.getElem_set_ne (Ne.symm hin)]

theorem list_decomp_at (l : List Nat) (n : Nat) (h : n < l.length) :
    l = l.take n ++ l[n] :: l.drop (n + 1) := by
  have hself := List.set_eq_take_cons_drop (l := l) l[n] h
  rw [list_set_getElem_self l n h] at hself
  exact hself

/-- Changing one in-range byte of the ciphertext changes the
authentication tag of the ideal MAC. -/
theorem gcmTag_set_ne (key : Nat) (ct : List Nat) (hctb : ∀ b ∈ ct, b < 256)
    (r : Nat) (hr : r < ct.length) (b2 : Nat) (hb2 : b2 < 256) (hne2 : b2 ≠ ct[r]) :
    gcmTag key (ct.set r b2) ≠ gcmTag key ct := by
  intro h
  have hv1 : gcmTagVal key (ct.set r b2) < 2 ^ 128 := Nat.mod_lt _ (by norm_num)
  have hv2 : gcmTagVal key ct < 2 ^ 128 := Nat.mod_lt _ (by norm_num)
  have h128 : (2 : Nat) ^ 128 = 256 ^ 16 := by norm_num
  have hval : gcmTagVal key (ct.set r b2) = gcmTagVal key ct :=
    natToBytes_inj 16 _ _ (h128 ▸ hv1) (h128 ▸ hv2) h
  have hpoly : bytePoly (ct.set r b2) % 2 ^ 128 ≠ bytePoly ct % 2 ^ 128 := by
    rw [List.set_eq_take_cons_drop (l := ct) b2 hr]
    conv_rhs => rw [list_decomp_at ct r hr]
    exact bytePoly_set_ne (ct.take r) (ct.drop (r + 1)) b2 ct[r] hb2
      (hctb _ (List.getElem_mem hr)) hne2
  apply hpoly
  have hmod : Nat.ModEq (2 ^ 128) (key + bytePoly aadBytes + bytePoly (ct.set r b2))
      (key + bytePoly aadBytes + bytePoly ct) := hval
  exact Nat.ModEq.add_left_cancel' _ hmod

/-- C2: Flipping any single byte in the auth-tag region (offsets 80..96)
or the ciphertext region (offsets 96..) of a blob produced by `encrypt`
makes `decrypt` fail closed with the tag-verification (decryption)
error; it never returns any plaintext.  `blob[p]?` is the byte at the
modified offset and `b2` the replacement byte. -/
theorem decrypt_tamper_fails
    (mk salt iv text : List Nat)
    (hmk : 32 ≤ mk.length) (hs : salt.length = 64) (hi : iv.length = 16)
    (ht : text ≠ []) (htb : ∀ b ∈ text, b < 256)
    (blob : List Nat) (henc : encrypt mk salt iv text = .ok blob)
    (p b2 : Nat) (hp : 80 ≤ p) (hplen : p < blob.length)
    (hb2 : b2 < 256) (hne : blob[p]? ≠ some b2) :
    decrypt mk (blob.set p b2) = .error .authFailed := by
  have hte : text.isEmpty = false := by
    cases text with
    | nil => exact absurd rfl ht
    | cons a l => rfl
  have hmk2 : ¬ mk.length < 32 := by omega
  simp only [encrypt, hte, Bool.false_eq_true, if_false, hmk2, Except.ok.injEq] at henc
  set key := deriveKey mk salt with hkey
  set ct := gcmEnc key 0 text with hct
  set tag := gcmTag key ct with htagdef
  have htagl : tag.length = 16 := natToBytes_length _ _
  have hctb : ∀ b ∈ ct, b < 256 := gcmEnc_lt key 0 text
  subst henc
  have hlen : (salt ++ iv ++ tag ++ ct).length = 96 + ct.length := by
    simp [hs, hi, htagl]
    omega
  rw [hlen] at hplen
  have hgroup : salt ++ iv ++ tag ++ ct = (salt ++ iv) ++ (tag ++ ct) := by
    simp
  have hL1 : (salt ++ iv).length = 80 := by simp [hs, hi]
  have hset : (salt ++ iv ++ tag ++ ct).set p b2
      = (salt ++ iv) ++ (tag ++ ct).set (p - 80) b2 := by
    rw [hgroup, List.set_append_right p b2 (by omega)]
    rw [hL1]
  have hgetp : (salt ++ iv ++ tag ++ ct)[p]? = (tag ++ ct)[p - 80]? := by
    rw [hgroup, List.getElem?_append_right (by omega)]
    rw [hL1]
  rw [hgetp] at hne
  -- the modified offset inside tag ++ ct
  set q := p - 80 with hqdef
  have hq : q < 16 + ct.length := by omega
  by_cases hreg : q < 16
  · -- auth-tag region
    have hset2 : (tag ++ ct).set q b2 = tag.set q b2 ++ ct :=
      List.set_append_left q b2 (by omega)
    have hget2 : (tag ++ ct)[q]? = some tag[q] := by
      rw [List.getElem?_append_left (by omega)]
      exact List.getElem?_eq_getElem (by omega)
    rw [hget2] at hne
    have htagne : tag[q] ≠ b2 := fun h => hne (by rw [h])
    have htagl2 : (tag.set q b2).length = 16 := by
      rw [List.length_set]; exact htagl
    have hparse := blob_parse salt iv (tag.set q b2) ct hs hi htagl2
    rw [hset, hset2, show (salt ++ iv) ++ (tag.set q b2 ++ ct)
      = salt ++ iv ++ tag.set q b2 ++ ct from by simp]
    have hempty : (salt ++ iv ++ tag.set q b2 ++ ct).isEmpty = false := by
      cases hcase : salt ++ iv ++ tag.set q b2 ++ ct with
      | nil => rw [← List.length_eq_zero] at hcase; simp [hs, hi, htagl2] at hcase
      | cons a l => rfl
    simp only [decrypt, hempty, Bool.false_eq_true, if_false, hmk2,
      SALT_LENGTH, IV_LENGTH, AUTH_TAG_LENGTH]
    rw [hparse.1, hparse.2.1, hparse.2.2]
    rw [if_neg]
    intro hcontra
    rw [← htagdef] at hcontra
    have hq16 : q < tag.length := by omega
    have hsome : tag[q]? = some b2 := by
      rw [hcontra]
      exact List.getElem?_set_self (by omega)
    rw [List.getElem?_eq_getElem hq16] at hsome
    exact htagne (Option.some.inj hsome)
  · -- ciphertext region
    set r := q - 16 with hrdef
    have hr : r < ct.length := by omega
    have hset2 : (tag ++ ct).set q b2 = tag ++ ct.set r b2 := by
      rw [List.set_append_right q b2 (by omega), htagl]
    have hget2 : (tag ++ ct)[q]? = some ct[r] := by
      rw [List.getElem?_append_right (by omega), htagl]
      exact List.getElem?_eq_getElem (by omega)
    rw [hget2] at hne
    have hctne : b2 ≠ ct[r] := fun h => hne (by rw [h])
    have hparse := blob_parse salt iv tag (ct.set r b2) hs hi htagl
    rw [hset, hset2, show (salt ++ iv) ++ (tag ++ ct.set r b2)
      = salt ++ iv ++ tag ++ ct.set r b2 from by simp]
    have hempty : (salt ++ iv ++ tag ++ ct.set r b2).isEmpty = false := by
      cases hcase : salt ++ iv ++ tag ++ ct.set r b2 with
      | nil => rw [← List.length_eq_zero] at hcase; simp [hs, hi, htagl] at hcase
      | cons a l => rfl
    simp only [decrypt, hempty, Bool.false_eq_true, if_false, hmk2,
      SALT_LENGTH, IV_LENGTH, AUTH_TAG_LENGTH]
    rw [hparse.1, hparse.2.1, hparse.2.2]
    rw [if_neg]
    rw [htagdef]
    exact gcmTag_set_ne key ct hctb r hr b2 hb2 hctne

/-! ### Concrete inputs witnessing the cipher theorems -/

def mkW : List Nat := List.replicate 32 7

def saltW : List Nat := List.replicate 64 1

def saltW2 : List Nat := List.replicate 64 2

def ivW : List Nat := List.replicate 16 3

def textW : List Nat := [10, 20, 30]

def blobW : List Nat :=
  saltW ++ ivW ++ gcmTag (deriveKey mkW saltW) (gcmEnc (deriveKey mkW saltW) 0 textW)
    ++ gcmEnc (deriveKey mkW saltW) 0 textW

/-- Witness for C1 at a concrete master key, salts, iv and plaintext. -/
theorem encrypt_decrypt_roundtrip_fresh_witness :
    (∃ blob, encrypt mkW saltW ivW textW = .ok blob ∧ decrypt mkW blob = .ok textW) ∧
    (∀ blob blob2, encrypt mkW saltW ivW textW = .ok blob →
      encrypt mkW saltW2 ivW textW = .ok blob2 → blob ≠ blob2) :=
  encrypt_decrypt_roundtrip_fresh mkW saltW ivW textW saltW2 ivW
    (by decide) (by decide) (by decide) (by decide) (by decide) (by decide) (by decide)

set_option maxRecDepth 4000 in
/-- Witness for C2: flipping ciphertext byte 0 (blob offset 96) of a
concrete encrypted blob makes decrypt fail closed. -/
theorem decrypt_tamper_fails_witness :
    decrypt mkW (blobW.set 96 0) = .error .authFailed :=
  decrypt_tamper_fails mkW saltW ivW textW (by decide) (by decide) (by decide)
    (by decide) (by decide) blobW rfl 96 0 (by decide) (by decide)
    (by decide) (by decide)

/-! ## Device trust evaluator (src/unnamed/part_004, first file: utils/verifyDevice.js)

JavaScript device-info objects become `DeviceInfo` structures whose
fields are `Option String`: `none` is an absent (undefined) field and
`some ""` an empty string; JavaScript falsiness of a string field is
either of those.  The SHA-256 fingerprint hash is an external primitive
passed as a function parameter.  The `typeof` checks of
validateDeviceInfo are statically satisfied in the typed model. -/

/-- A device descriptor as sent by clients / stored on the account. -/
structure DeviceInfo where
  deviceId : Option String
  platform : Option String
  model : Option String
  version : Option String
  fingerprint : Option String
  userAgent : Option String
  screenResolution : Option String
  timezone : Option String
  language : Option String
  deriving DecidableEq, Repr

/-- JavaScript falsiness of an optional string field. -/
def falsy (s : Option String) : Prop := s = none ∨ s = some ""

instance (s : Option String) : Decidable (falsy s) :=
  inferInstanceAs (Decidable (s = none ∨ s = some ""))

/-- `generateDeviceFingerprint(deviceInfo)`: SHA-256 hex digest (the
`hash` parameter) of the characteristics joined by the bar character. -/
def generateDeviceFingerprint (hash : String → String) (d : DeviceInfo) : String :=
  hash (String.intercalate "|"
    [d.platform.getD "", d.model.getD "", d.version.getD "", d.deviceId.getD "",
     d.userAgent.getD "", d.screenResolution.getD "", d.timezone.getD "",
     d.language.getD ""])

/-- Result shape of `validateDeviceInfo`. -/
structure ValidationResult where
  isValid : Bool
  errors : List String
  deriving DecidableEq, Repr

/-- `validateDeviceInfo(deviceInfo)`: requires a present descriptor, a
truthy deviceId of length at least 10, and a truthy platform. -/
def validateDeviceInfo : Option DeviceInfo → ValidationResult
  | none => { isValid := false, errors := ["Device info is required"] }
  | some d =>
    let e1 := if falsy d.deviceId then ["Device ID is required and must be a string"] else []
    let e2 := if ¬ falsy d.deviceId ∧ (d.deviceId.getD "").length < 10 then
                ["Device ID must be at least 10 characters long"] else []
    let e3 := if falsy d.platform then ["Platform is required and must be a string"] else []
    let errors := e1 ++ e2 ++ e3
    { isValid := errors.isEmpty, errors := errors }

/-- `String.prototype.trim`: strips whitespace from both ends
(executable model over the character list). -/
def jsTrim (s : String) : String :=
  ⟨((s.data.dropWhile Char.isWhitespace).reverse.dropWhile Char.isWhitespace).reverse⟩

/-- `normalizeDeviceInfo(deviceInfo)`: derives the fingerprint from the
untrimmed fields when absent, then trims every present string field. -/
def normalizeDeviceInfo (hash : String → String) (d : DeviceInfo) : DeviceInfo :=
  let fp := if falsy d.fingerprint then some (generateDeviceFingerprint hash d)
            else d.fingerprint
  { deviceId := d.deviceId.map jsTrim
    platform := d.platform.map jsTrim
    model := d.model.map jsTrim
    version := d.version.map jsTrim
    fingerprint := fp.map jsTrim
    userAgent := d.userAgent.map jsTrim
    screenResolution := d.screenResolution.map jsTrim
    timezone := d.timezone.map jsTrim
    language := d.language.map jsTrim }

/-- `verifyDevice(stored, provided)` of utils/verifyDevice.js: false when
either descriptor is missing, otherwise exact equality of deviceId and
fingerprint. -/
def verifyDevice : Option DeviceInfo → Option DeviceInfo → Bool
  | some stored, some provided =>
    stored.deviceId == provided.deviceId && stored.fingerprint == provided.fingerprint
  | _, _ => false

/-- The `user.verifyDevice(deviceInfo)` method of the User model
(models/User.js): deviceId and fingerprint equality against the stored
descriptor. -/
def userVerifyDevice (stored provided : DeviceInfo) : Bool :=
  stored.deviceId == provided.deviceId && stored.fingerprint == provided.fingerprint

/-- Risk levels of `analyzeDeviceChange`. -/
inductive RiskLevel where
  | low
  | medium
  | high
  deriving DecidableEq, Repr

/-- Result shape of `analyzeDeviceChange`.  The early return for a
missing side carries no riskLevel field (undefined in JS), hence the
`Option`. -/
structure DeviceChangeAnalysis where
  isSuspicious : Bool
  reasons : List String
  riskLevel : Option RiskLevel
  deriving DecidableEq, Repr

/-- `analyzeDeviceChange(oldDeviceInfo, newDeviceInfo)`: accumulates a
reason per changed signal (deviceId, platform, model when both sides
have one, fingerprint) and classifies risk by the number of reasons. -/
def analyzeDeviceChange : Option DeviceInfo → Option DeviceInfo → DeviceChangeAnalysis
  | some o, some n =>
    let r1 := if o.deviceId ≠ n.deviceId then ["Device ID changed completely"] else []
    let r2 := if o.platform ≠ n.platform then ["Platform changed"] else []
    let r3 := if ¬ falsy o.model ∧ ¬ falsy n.model ∧ o.model ≠ n.model then
                ["Device model changed"] else []
    let r4 := if o.fingerprint ≠ n.fingerprint then ["Device fingerprint changed"] else []
    let reasons := r1 ++ r2 ++ r3 ++ r4
    { isSuspicious := ¬ reasons.isEmpty,
      reasons := reasons,
      riskLevel := some (if 2 ≤ reasons.length then .high
                         else if reasons.length = 1 then .medium else .low) }
  | _, _ => { isSuspicious := false, reasons := [], riskLevel := none }

/-- The number of differing device signals between two present
descriptors, where a model difference counts only when both sides carry
a truthy model value; used to state the risk classification. -/
def changedSignals (o n : DeviceInfo) : Nat :=
  (if o.deviceId ≠ n.deviceId then 1 else 0) +
  (if o.platform ≠ n.platform then 1 else 0) +
  (if ¬ falsy o.model ∧ ¬ falsy n.model ∧ o.model ≠ n.model then 1 else 0) +
  (if o.fingerprint ≠ n.fingerprint then 1 else 0)

/-! ### Device-change risk classification (C6) -/

def oldDevW : DeviceInfo :=
  { deviceId := some "device-abc-0001", platform := some "ios", model := none,
    version := some "17.0", fingerprint := some "fp-1", userAgent := none,
    screenResolution := none, timezone := none, language := none }

def newDevW : DeviceInfo :=
  { deviceId := some "device-abc-0001", platform := some "ios", model := some "iPhone15",
    version := some "17.0", fingerprint := some "fp-1", userAgent := none,
    screenResolution := none, timezone := none, language := none }

/-- C6 counterexample: two present descriptors that differ in the model
field (absent on one side, present on the other) produce zero reasons,
risk level low and not suspicious, where the claim predicts one
accumulated reason and risk level medium: the source only counts a
model change when both sides carry a truthy model. -/
theorem analyzeDeviceChange_missing_model_counterexample :
    oldDevW.model ≠ newDevW.model ∧
    oldDevW.deviceId = newDevW.deviceId ∧
    oldDevW.platform = newDevW.platform ∧
    oldDevW.fingerprint = newDevW.fingerprint ∧
    analyzeDeviceChange (some oldDevW) (some newDevW)
      = { isSuspicious := false, reasons := [], riskLevel := some .low } := by
  refine ⟨by decide, rfl, rfl, rfl, ?_⟩
  decide

/-- Characterization of `analyzeDeviceChange` on present descriptors in
terms of the differing-signal count (shared helper). -/
theorem analyzeDeviceChange_characterization (o n : DeviceInfo) :
    (analyzeDeviceChange (some o) (some n)).reasons.length = changedSignals o n ∧
    ((analyzeDeviceChange (some o) (some n)).isSuspicious = true ↔
      0 < changedSignals o n) ∧
    (analyzeDeviceChange (some o) (some n)).riskLevel =
      some (if 2 ≤ changedSignals o n then RiskLevel.high
            else if changedSignals o n = 1 then RiskLevel.medium else RiskLevel.low) := by
  simp only [analyzeDeviceChange, changedSignals]
  split_ifs <;> simp_all

/-! ## Account records and login (src/unnamed/part_000: models/User.js;
src/src/controllers/authController.js)

Mongo user documents become `UserDoc`.  bcrypt compare/hash, the otplib
TOTP verifier and the SHA-256 fingerprint hash are external primitives
passed as function parameters, so every theorem below holds for every
implementation of those primitives.  Timestamps are abstract `Nat`
instants.  Each controller returns its HTTP response together with the
document written back by `user.save()` (`none` when nothing is saved). -/

/-- A persisted per-chain wallet record (User schema `wallets.<chain>`:
address, encryptedPrivateKey, encryptedSeed).  String contents are byte
lists; an empty list models a missing/empty value. -/
structure WalletDoc where
  address : List Nat
  encryptedPrivateKey : List Nat
  encryptedSeed : List Nat
  deriving DecidableEq, Repr

/-- The `wallets` sub-document of a user. -/
structure UserWallets where
  ethereum : Option WalletDoc
  bitcoin : Option WalletDoc
  tron : Option WalletDoc
  deriving DecidableEq, Repr

/-- A persisted user document (models/User.js schema). -/
structure UserDoc where
  username : String
  securityCodeHash : String
  hashKeyHash : String
  deviceInfo : DeviceInfo
  newDeviceFound : Bool
  pendingDeviceInfo : Option DeviceInfo
  twoFactorSecret : String
  twoFactorEnabled : Bool
  wallets : UserWallets
  platformFeeBalance : Rat
  isActive : Bool
  isLocked : Bool
  lockReason : Option String
  lastLogin : Option Nat
  lastTwoFactorVerification : Option Nat
  deriving DecidableEq, Repr

/-- The login request body. -/
structure LoginRequest where
  securityCode : String
  hashKey : String
  deviceInfo : Option DeviceInfo
  twoFactorCode : String
  deriving DecidableEq, Repr

/-- The outward result of the login controller. -/
inductive LoginResponse where
  | missingFields
  | invalidDeviceInfo (errors : List String)
  | invalidCredentials
  | accountLocked (reason : Option String)
  | deviceMismatch (riskLevel : Option RiskLevel) (reasons : List String)
  | invalidTwoFactor
  | success (username : String)
  deriving DecidableEq, Repr

/-- The credential scan of the login controller: all active users are
fetched and the first candidate for which both
`candidate.verifySecurityCode(securityCode)` and
`candidate.verifyHashKey(hashKey)` hold is selected.  `compare` is
bcrypt.compare(plain, digest). -/
def findCredentialMatch (compare : String → String → Bool)
    (securityCode hashKey : String) (users : List UserDoc) : Option UserDoc :=
  (users.filter (fun u => u.isActive)).find?
    (fun u => compare securityCode u.securityCodeHash && compare hashKey u.hashKeyHash)

/-- The login controller (authController.js `login`): required fields,
device validation, credential scan, lock check, device verification
(with change analysis on mismatch), TOTP verification, then timestamp
update and save.  `totp` is `authenticator.verify`, `hash` the
fingerprint digest, `now` the current instant.  Returns the response
and the saved document, `none` when no write happened. -/
def login (compare totp : String → String → Bool) (hash : String → String)
    (now : Nat) (users : List UserDoc) (req : LoginRequest) :
    LoginResponse × Option UserDoc :=
  match req.deviceInfo with
  | none => (.missingFields, none)
  | some d =>
    if req.securityCode = "" ∨ req.hashKey = "" ∨ req.twoFactorCode = "" then
      (.missingFields, none)
    else if (validateDeviceInfo (some d)).isValid = false then
      (.invalidDeviceInfo (validateDeviceInfo (some d)).errors, none)
    else
      match findCredentialMatch compare req.securityCode req.hashKey users with
      | none => (.invalidCredentials, none)
      | some user =>
        if user.isLocked then (.accountLocked user.lockReason, none)
        else
          let nd := normalizeDeviceInfo hash d
          if userVerifyDevice user.deviceInfo nd = false then
            (.deviceMismatch (analyzeDeviceChange (some user.deviceInfo) (some nd)).riskLevel
              (analyzeDeviceChange (some user.deviceInfo) (some nd)).reasons, none)
          else if totp req.twoFactorCode user.twoFactorSecret = false then
            (.invalidTwoFactor, none)
          else
            let u2 : UserDoc := { user with
              lastLogin := some now
              lastTwoFactorVerification := some now }
            (.success u2.username, some u2)

/-- C6 amended: for present descriptors, reasons accumulate one entry
per differing signal among deviceId, platform, model and fingerprint,
except that a model difference counts only when both sides carry a
truthy model value; risk is high at two or more reasons, medium at
exactly one, low at zero, and the change is suspicious exactly when
there is at least one reason. -/
theorem analyzeDeviceChange_risk_spec (o n : DeviceInfo) :
    (analyzeDeviceChange (some o) (some n)).reasons.length = changedSignals o n ∧
    ((analyzeDeviceChange (some o) (some n)).isSuspicious = true ↔
      0 < changedSignals o n) ∧
    (analyzeDeviceChange (some o) (some n)).riskLevel =
      some (if 2 ≤ changedSignals o n then RiskLevel.high
            else if changedSignals o n = 1 then RiskLevel.medium else RiskLevel.low) :=
  analyzeDeviceChange_characterization o n

/-- C4: the credential scan selects a user only when both the presented
secret code and the presented hash key verify against that same active
account's two stored digests; it finds nothing exactly when no active
account matches both factors (so cross-account factor pairs never
authenticate), and in that case login uniformly answers with the
invalid-credentials failure and writes nothing. -/
theorem login_credential_matching
    (compare totp : String → String → Bool) (hash : String → String)
    (now : Nat) (users : List UserDoc) (req : LoginRequest) :
    (∀ u, findCredentialMatch compare req.securityCode req.hashKey users = some u →
      u ∈ users ∧ u.isActive = true ∧
      compare req.securityCode u.securityCodeHash = true ∧
      compare req.hashKey u.hashKeyHash = true) ∧
    (findCredentialMatch compare req.securityCode req.hashKey users = none ↔
      ∀ u ∈ users, u.isActive = true →
        ¬(compare req.securityCode u.securityCodeHash = true ∧
          compare req.hashKey u.hashKeyHash = true)) ∧
    (∀ d, req.deviceInfo = some d → req.securityCode ≠ "" → req.hashKey ≠ "" →
      req.twoFactorCode ≠ "" → (validateDeviceInfo (some d)).isValid = true →
      findCredentialMatch compare req.securityCode req.hashKey users = none →
      login compare totp hash now users req = (.invalidCredentials, none)) := by
  refine ⟨?_, ?_, ?_⟩
  · intro u hu
    unfold findCredentialMatch at hu
    have hmem := List.mem_of_find?_eq_some hu
    have hp := List.find?_some hu
    rw [List.mem_filter] at hmem
    simp only [Bool.and_eq_true] at hp
    exact ⟨hmem.1, hmem.2, hp.1, hp.2⟩
  · unfold findCredentialMatch
    rw [List.find?_eq_none]
    constructor
    · intro h u hu ha hc
      have := h u (List.mem_filter.mpr ⟨hu, ha⟩)
      simp only [Bool.and_eq_true] at this
      exact this ⟨hc.1, hc.2⟩
    · intro h u hu
      rw [List.mem_filter] at hu
      simp only [Bool.and_eq_true]
      intro hc
      exact h u hu.1 hu.2 ⟨hc.1, hc.2⟩
  · intro d hd hsc hhk htc hval hnone
    rcases req with ⟨sc, hk, di, tc⟩
    simp only at hd hsc hhk htc hnone
    subst hd
    simp only [login]
    rw [if_neg (by push_neg; exact ⟨hsc, hhk, htc⟩)]
    rw [if_neg (by rw [hval]; simp)]
    rw [hnone]

/-- C5: when credentials match an unlocked account but the presented
device fails the stored binding (deviceId or fingerprint differs after
normalization), login answers with the device-mismatch failure carrying
the change analysis (risk level and reasons), writes nothing back
(stored device binding and login timestamps unchanged), and the risk
level is at least medium whenever the deviceId differs. -/
theorem login_device_mismatch_spec
    (compare totp : String → String → Bool) (hash : String → String)
    (now : Nat) (users : List UserDoc) (sc hk tc : String) (d : DeviceInfo)
    (user : UserDoc)
    (hsc : sc ≠ "") (hhk : hk ≠ "") (htc : tc ≠ "")
    (hval : (validateDeviceInfo (some d)).isValid = true)
    (hmatch : findCredentialMatch compare sc hk users = some user)
    (hlock : user.isLocked = false)
    (hmismatch : userVerifyDevice user.deviceInfo (normalizeDeviceInfo hash d) = false) :
    login compare totp hash now users ⟨sc, hk, some d, tc⟩ =
      (.deviceMismatch
        (analyzeDeviceChange (some user.deviceInfo)
          (some (normalizeDeviceInfo hash d))).riskLevel
        (analyzeDeviceChange (some user.deviceInfo)
          (some (normalizeDeviceInfo hash d))).reasons, none) ∧
    ((normalizeDeviceInfo hash d).deviceId ≠ user.deviceInfo.deviceId →
      (analyzeDeviceChange (some user.deviceInfo)
        (some (normalizeDeviceInfo hash d))).riskLevel = some RiskLevel.medium ∨
      (analyzeDeviceChange (some user.deviceInfo)
        (some (normalizeDeviceInfo hash d))).riskLevel = some RiskLevel.high) := by
  constructor
  · simp only [login]
    rw [if_neg (by push_neg; exact ⟨hsc, hhk, htc⟩)]
    rw [if_neg (by rw [hval]; simp)]
    rw [hmatch]
    simp only [hlock, Bool.false_eq_true, if_false]
    rw [if_pos hmismatch]
  · intro hdev
    have hchar := analyzeDeviceChange_characterization user.deviceInfo
      (normalizeDeviceInfo hash d)
    have hge : 1 ≤ changedSignals user.deviceInfo (normalizeDeviceInfo hash d) := by
      unfold changedSignals
      rw [if_pos (Ne.symm hdev)]
      omega
    rw [hchar.2.2]
    by_cases h2 : 2 ≤ changedSignals user.deviceInfo (normalizeDeviceInfo hash d)
    · right
      rw [if_pos h2]
    · left
      rw [if_neg h2, if_pos (by omega)]

/-! ### Concrete accounts witnessing the login theorems -/

/-- bcrypt.compare modelled concretely: the digest of a plaintext is the
plaintext followed by a marker. -/
def cmpW : String → String → Bool := fun plain digest => plain ++ "#h" == digest

def totpW : String → String → Bool := fun code secret => code == secret

def hashW : String → String := fun s => s

def devW : DeviceInfo :=
  { deviceId := some "device-abc-0001", platform := some "ios", model := none,
    version := none, fingerprint := some "fp-1", userAgent := none,
    screenResolution := none, timezone := none, language := none }

def devW2 : DeviceInfo :=
  { deviceId := some "device-xyz-9999", platform := some "ios", model := none,
    version := none, fingerprint := some "fp-1", userAgent := none,
    screenResolution := none, timezone := none, language := none }

def userW1 : UserDoc :=
  { username := "alice", securityCodeHash := "sc1#h", hashKeyHash := "hk1#h",
    deviceInfo := devW, newDeviceFound := false, pendingDeviceInfo := none,
    twoFactorSecret := "T1", twoFactorEnabled := true,
    wallets := { ethereum := none, bitcoin := none, tron := none },
    platformFeeBalance := 0, isActive := true, isLocked := false,
    lockReason := none, lastLogin := none, lastTwoFactorVerification := none }

def userW2 : UserDoc :=
  { username := "bob", securityCodeHash := "sc2#h", hashKeyHash := "hk2#h",
    deviceInfo := devW, newDeviceFound := false, pendingDeviceInfo := none,
    twoFactorSecret := "T2", twoFactorEnabled := true,
    wallets := { ethereum := none, bitcoin := none, tron := none },
    platformFeeBalance := 0, isActive := true, isLocked := false,
    lockReason := none, lastLogin := none, lastTwoFactorVerification := none }

/-- Witness for C4: a cross-account factor pair (alice's secret code
with bob's hash key) yields the uniform invalid-credentials failure and
no write. -/
theorem login_credential_matching_witness :
    login cmpW totpW hashW 0 [userW1, userW2]
      { securityCode := "sc1", hashKey := "hk2", deviceInfo := some devW,
        twoFactorCode := "T1" } = (.invalidCredentials, none) :=
  (login_credential_matching cmpW totpW hashW 0 [userW1, userW2]
    { securityCode := "sc1", hashKey := "hk2", deviceInfo := some devW,
      twoFactorCode := "T1" }).2.2 devW rfl (by decide) (by decide)
    (by decide) (by decide) (by decide)

/-- Witness for C5: correct credentials from a device with a different
deviceId produce the device-mismatch failure with risk at least medium
and no write. -/
theorem login_device_mismatch_spec_witness :
    (login cmpW totpW hashW 0 [userW1]
      { securityCode := "sc1", hashKey := "hk1", deviceInfo := some devW2,
        twoFactorCode := "T1" } =
      (.deviceMismatch
        (analyzeDeviceChange (some userW1.deviceInfo)
          (some (normalizeDeviceInfo hashW devW2))).riskLevel
        (analyzeDeviceChange (some userW1.deviceInfo)
          (some (normalizeDeviceInfo hashW devW2))).reasons, none)) ∧
    ((normalizeDeviceInfo hashW devW2).deviceId ≠ userW1.deviceInfo.deviceId →
      (analyzeDeviceChange (some userW1.deviceInfo)
        (some (normalizeDeviceInfo hashW devW2))).riskLevel = some RiskLevel.medium ∨
      (analyzeDeviceChange (some userW1.deviceInfo)
        (some (normalizeDeviceInfo hashW devW2))).riskLevel = some RiskLevel.high) :=
  login_device_mismatch_spec cmpW totpW hashW 0 [userW1] "sc1" "hk1" "T1" devW2
    userW1 (by decide) (by decide) (by decide) (by decide) (by decide)
    (by decide) (by decide)

/-! ## TOTP secret regeneration (authController.js `regenerate2FA`)

The route is guarded by authMiddleware (bearer token resolves to an
active, unlocked user passed in as `req.user`); the controller verifies
the presented code against the stored secret and only then replaces the
secret in a single document update.  `newSecret` models
`authenticator.generateSecret()` and `qrCodeUrl` the rendered
provisioning QR code. -/

/-- Outward result of the 2FA regeneration controller. -/
inductive Regen2FAResponse where
  | missingCode
  | invalidTwoFactor
  | ok (qrCodeUrl manualEntryKey : String)
  deriving DecidableEq, Repr

/-- `regenerate2FA(req, res)`: requires a code, verifies it against the
stored secret, then stores the freshly generated secret.  Returns the
response and the saved document (`none` when nothing was saved). -/
def regenerate2FA (totp : String → String → Bool) (user : UserDoc)
    (twoFactorCode newSecret qrCodeUrl : String) :
    Regen2FAResponse × Option UserDoc :=
  if twoFactorCode = "" then (.missingCode, none)
  else if totp twoFactorCode user.twoFactorSecret = false then
    (.invalidTwoFactor, none)
  else (.ok qrCodeUrl newSecret, some { user with twoFactorSecret := newSecret })

/-- C9: a code that verifies against the currently stored secret makes
regenerate2FA replace the stored secret with the freshly generated one
in a single atomic document write (the account holds exactly one secret
in every state, so there is no state in which both the old and the new
secret are active; afterward verification runs against the new secret
only, and when the fresh secret differs from the old one the old secret
is gone from the account); an invalid (or missing) code fails and
writes nothing, leaving the stored secret unchanged. -/
theorem regenerate2FA_spec (totp : String → String → Bool) (user : UserDoc)
    (code newSecret qrCodeUrl : String) :
    (code ≠ "" → totp code user.twoFactorSecret = true →
      regenerate2FA totp user code newSecret qrCodeUrl =
        (.ok qrCodeUrl newSecret, some { user with twoFactorSecret := newSecret }) ∧
      (∀ u2, (regenerate2FA totp user code newSecret qrCodeUrl).2 = some u2 →
        u2.twoFactorSecret = newSecret ∧
        (newSecret ≠ user.twoFactorSecret → u2.twoFactorSecret ≠ user.twoFactorSecret))) ∧
    (totp code user.twoFactorSecret = false →
      (regenerate2FA totp user code newSecret qrCodeUrl).2 = none ∧
      ((regenerate2FA totp user code newSecret qrCodeUrl).1 = .invalidTwoFactor ∨
       (regenerate2FA totp user code newSecret qrCodeUrl).1 = .missingCode)) := by
  constructor
  · intro hc hv
    have hred : regenerate2FA totp user code newSecret qrCodeUrl =
        (.ok qrCodeUrl newSecret, some { user with twoFactorSecret := newSecret }) := by
      unfold regenerate2FA
      rw [if_neg hc, hv]
      simp
    refine ⟨hred, ?_⟩
    intro u2 hu2
    rw [hred] at hu2
    simp only [Option.some.injEq] at hu2
    subst hu2
    exact ⟨rfl, fun hne => hne⟩
  · intro hv
    unfold regenerate2FA
    by_cases hc : code = ""
    · rw [if_pos hc]
      exact ⟨rfl, Or.inr rfl⟩
    · rw [if_neg hc, hv]
      simp

/-- Witness for C9 at a concrete account and codes: valid current code
replaces the secret; a wrong code leaves everything unchanged. -/
theorem regenerate2FA_spec_witness :
    (regenerate2FA totpW userW1 "T1" "T9" "qr" =
      (.ok "qr" "T9", some { userW1 with twoFactorSecret := "T9" }) ∧
      (∀ u2, (regenerate2FA totpW userW1 "T1" "T9" "qr").2 = some u2 →
        u2.twoFactorSecret = "T9" ∧
        ("T9" ≠ userW1.twoFactorSecret → u2.twoFactorSecret ≠ userW1.twoFactorSecret))) :=
  (regenerate2FA_spec totpW userW1 "T1" "T9" "qr").1 (by decide) (by decide)

/-! ## Sending crypto with platform-fee deduction
(authController.js, wallet controller part: `sendCrypto`)

`sendTransaction` performs the chain call (decrypt key, build, sign,
broadcast); its outcome is passed in as an `Except`, and the model
additionally reports whether that call was reached.  Amounts and
balances are rationals (JS numbers); the platform fee is
`amount * (PLATFORM_FEE_PERCENTAGE / 100)`. -/

/-- `String.prototype.toLowerCase` (executable model). -/
def jsToLower (s : String) : String := ⟨s.data.map Char.toLower⟩

/-- EVM-compatible chain aliases accepted by the wallet lookup. -/
def evmChains : List String := ["ethereum", "eth", "bsc", "bnb", "polygon", "matic"]

/-- Bitcoin chain aliases. -/
def btcChains : List String := ["bitcoin", "btc"]

/-- Tron chain aliases. -/
def tronChains : List String := ["tron", "trx"]

/-- The chain-alias dispatch of sendCrypto: `none` is an unsupported
chain, `some w` the wallet slot selected for the chain family. -/
def lookupWallet (user : UserDoc) (chainLower : String) : Option (Option WalletDoc) :=
  if evmChains.contains chainLower then some user.wallets.ethereum
  else if btcChains.contains chainLower then some user.wallets.bitcoin
  else if tronChains.contains chainLower then some user.wallets.tron
  else none

/-- The send request body; `amount` is the parsed numeric amount
(`none` when the field is absent/blank). -/
structure SendRequest where
  coinType : String
  chain : String
  recipient : String
  amount : Option Rat
  tokenAddress : Option String
  deriving DecidableEq, Repr

/-- Outward result of the send controller. -/
inductive SendResponse where
  | missingFields
  | invalidAmount
  | unsupportedChain (chain : String)
  | walletNotFound (chain : String)
  | insufficientFeeCredit (required available : Rat)
  | txFailed
  | success (feeAmount remainingBalance : Rat)
  deriving DecidableEq, Repr

/-- `sendCrypto(req, res)`: validation, wallet lookup by chain alias,
platform-fee check against `platformFeeBalance` BEFORE the chain call,
then the chain call, and only after its success the fee deduction and
save.  Returns (response, saved document or none, whether the chain
call `sendTransaction` was invoked). -/
def sendCrypto (user : UserDoc) (req : SendRequest) (feePct : Rat)
    (txOutcome : Except String Unit) : SendResponse × Option UserDoc × Bool :=
  if req.coinType = "" ∨ req.chain = "" ∨ req.recipient = "" ∨ req.amount = none then
    (.missingFields, none, false)
  else
    match req.amount with
    | none => (.missingFields, none, false)
    | some a =>
      if a ≤ 0 then (.invalidAmount, none, false)
      else
        match lookupWallet user (jsToLower req.chain) with
        | none => (.unsupportedChain req.chain, none, false)
        | some none => (.walletNotFound req.chain, none, false)
        | some (some w) =>
          if w.encryptedPrivateKey = [] then (.walletNotFound req.chain, none, false)
          else
            let feeAmount := a * (feePct / 100)
            if user.platformFeeBalance < feeAmount then
              (.insufficientFeeCredit feeAmount user.platformFeeBalance, none, false)
            else
              match txOutcome with
              | .error _ => (.txFailed, none, true)
              | .ok _ =>
                (.success feeAmount (user.platformFeeBalance - feeAmount),
                 some { user with
                   platformFeeBalance := user.platformFeeBalance - feeAmount },
                 true)

/-- C10: when the derived platform fee exceeds the account's fee-credit
balance (on a well-formed request whose chain resolves to a wallet with
a key), the send fails with the insufficient-fee-credit error, the
chain call is never attempted and no document is written (balance
unchanged); and in every run a document is written only when the chain
call succeeded, with the balance decremented by exactly the fee, while
a failed chain call writes nothing. -/
theorem sendCrypto_fee_credit_spec (user : UserDoc) (req : SendRequest)
    (feePct : Rat) (txOutcome : Except String Unit) (a : Rat) (w : WalletDoc)
    (hct : req.coinType ≠ "") (hch : req.chain ≠ "") (hrc : req.recipient ≠ "")
    (ha : req.amount = some a) (hpos : 0 < a)
    (hw : lookupWallet user (jsToLower req.chain) = some (some w))
    (hkey : w.encryptedPrivateKey ≠ []) :
    (user.platformFeeBalance < a * (feePct / 100) →
      sendCrypto user req feePct txOutcome =
        (.insufficientFeeCredit (a * (feePct / 100)) user.platformFeeBalance,
         none, false)) ∧
    (∀ u2, (sendCrypto user req feePct txOutcome).2.1 = some u2 →
      txOutcome = .ok () ∧ a * (feePct / 100) ≤ user.platformFeeBalance ∧
      u2.platformFeeBalance = user.platformFeeBalance - a * (feePct / 100)) ∧
    (∀ e, txOutcome = .error e → (sendCrypto user req feePct txOutcome).2.1 = none) := by
  have hna : ¬(req.coinType = "" ∨ req.chain = "" ∨ req.recipient = "" ∨
      req.amount = none) := by
    push_neg
    exact ⟨hct, hch, hrc, by rw [ha]; exact fun h => Option.noConfusion h⟩
  have hle : ¬ a ≤ 0 := not_le.mpr hpos
  have hbase : sendCrypto user req feePct txOutcome =
      (if user.platformFeeBalance < a * (feePct / 100) then
        (.insufficientFeeCredit (a * (feePct / 100)) user.platformFeeBalance,
         none, false)
      else
        match txOutcome with
        | .error _ => (.txFailed, none, true)
        | .ok _ =>
          (.success (a * (feePct / 100)) (user.platformFeeBalance - a * (feePct / 100)),
           some { user with
             platformFeeBalance := user.platformFeeBalance - a * (feePct / 100) },
           true)) := by
    unfold sendCrypto
    rw [if_neg hna, ha]
    simp only [if_neg hle, hw, if_neg hkey]
  refine ⟨?_, ?_, ?_⟩
  · intro hfee
    rw [hbase, if_pos hfee]
  · intro u2 hu2
    rw [hbase] at hu2
    by_cases hfee : user.platformFeeBalance < a * (feePct / 100)
    · rw [if_pos hfee] at hu2
      exact absurd hu2 (by simp)
    · rw [if_neg hfee] at hu2
      cases txOutcome with
      | error e => exact absurd hu2 (by simp)
      | ok u =>
        simp only [Option.some.injEq] at hu2
        subst hu2
        exact ⟨rfl, not_lt.mp hfee, rfl⟩
  · intro e he
    rw [hbase]
    subst he
    by_cases hfee : user.platformFeeBalance < a * (feePct / 100)
    · rw [if_pos hfee]
    · rw [if_neg hfee]

def walletW : WalletDoc :=
  { address := [1, 2], encryptedPrivateKey := [3, 4], encryptedSeed := [5, 6] }

def walletsW : UserWallets :=
  { ethereum := some walletW, bitcoin := none, tron := none }

def userW3 : UserDoc := { userW1 with wallets := walletsW }

def sendReqW : SendRequest :=
  { coinType := "eth", chain := "ethereum", recipient := "0xabc",
    amount := some 10000, tokenAddress := none }

/-- Witness for C10: fee 10 SHIBAU on a 0-credit account is rejected
before any chain call, with nothing written. -/
theorem sendCrypto_fee_credit_spec_witness :
    sendCrypto userW3 sendReqW (1 / 10) (.ok ()) =
      (.insufficientFeeCredit ((10000 : Rat) * ((1 / 10) / 100))
        userW3.platformFeeBalance, none, false) :=
  (sendCrypto_fee_credit_spec userW3 sendReqW (1 / 10) (.ok ()) 10000 walletW
    (by decide) (by decide) (by decide) rfl (by norm_num) (by decide)
    (by decide)).1 (by norm_num [userW3, userW1])

/-! ## Wallet generation and registration
(authRoutes.js `generateAllWallets`, lines 862-907;
authController.js `register`, lines 11-102)

The per-chain key-pair generators (ethers / bitcoinjs-lib / tronweb)
are external cryptographic libraries; their outputs (addresses, raw
private keys, public keys, mnemonic, WIF) enter the model as
parameters, together with the randomness (salts/ivs) consumed by the
six `encrypt` calls.  Persisting the user goes through the mongoose
User schema, which in its default strict mode stores only the declared
paths `wallets.<chain>.{address, encryptedPrivateKey, encryptedSeed}`;
the in-memory extras (publicKey, legacyAddress, wif, hexAddress) are
dropped by `persistWallets`. -/

/-- Output of `generateEthereumWallet()`. -/
structure EthWalletGen where
  address : List Nat
  privateKey : List Nat
  publicKey : List Nat
  mnemonic : List Nat
  deriving DecidableEq, Repr

/-- Output of `generateBitcoinWallet(seed)`. -/
structure BtcWalletGen where
  address : List Nat
  legacyAddress : List Nat
  privateKey : List Nat
  publicKey : List Nat
  wif : List Nat
  deriving DecidableEq, Repr

/-- Output of `generateTronWallet(seed)`. -/
structure TronWalletGen where
  address : List Nat
  hexAddress : List Nat
  privateKey : List Nat
  deriving DecidableEq, Repr

/-- The in-memory `wallets.ethereum` object built by generateAllWallets. -/
structure EthWalletFull where
  address : List Nat
  encryptedPrivateKey : List Nat
  encryptedSeed : List Nat
  publicKey : List Nat
  deriving DecidableEq, Repr

/-- The in-memory `wallets.bitcoin` object built by generateAllWallets. -/
structure BtcWalletFull where
  address : List Nat
  legacyAddress : List Nat
  encryptedPrivateKey : List Nat
  encryptedSeed : List Nat
  publicKey : List Nat
  wif : List Nat
  deriving DecidableEq, Repr

/-- The in-memory `wallets.tron` object built by generateAllWallets. -/
structure TronWalletFull where
  address : List Nat
  hexAddress : List Nat
  encryptedPrivateKey : List Nat
  encryptedSeed : List Nat
  deriving DecidableEq, Repr

/-- The in-memory wallets object returned by generateAllWallets. -/
structure FullWallets where
  ethereum : EthWalletFull
  bitcoin : BtcWalletFull
  tron : TronWalletFull
  deriving DecidableEq, Repr

/-- UTF-8 bytes of the seed suffix for the bitcoin derivation. -/
def btcSuffix : List Nat := [95, 98, 116, 99]

/-- UTF-8 bytes of the seed suffix for the tron derivation. -/
def tronSuffix : List Nat := [95, 116, 114, 111, 110]

/-- `generateAllWallets(masterSeed)`: generates the three chain wallets
and envelopes each private key and seed with `encrypt` (fresh salt/iv
pairs indexed 0..5); any encryption failure aborts the whole
generation, so no partially-populated wallet object is ever returned. -/
def generateAllWallets (mk : List Nat) (salts ivs : Fin 6 → List Nat)
    (seed : List Nat) (ethW : EthWalletGen) (btcW : BtcWalletGen)
    (tronW : TronWalletGen) : Except CryptoError FullWallets := do
  let ethKey ← encrypt mk (salts 0) (ivs 0) ethW.privateKey
  let ethSeed ← encrypt mk (salts 1) (ivs 1) ethW.mnemonic
  let btcKey ← encrypt mk (salts 2) (ivs 2) btcW.privateKey
  let btcSeed ← encrypt mk (salts 3) (ivs 3) (seed ++ btcSuffix)
  let tronKey ← encrypt mk (salts 4) (ivs 4) tronW.privateKey
  let tronSeed ← encrypt mk (salts 5) (ivs 5) (seed ++ tronSuffix)
  let ethFull : EthWalletFull :=
    { address := ethW.address, encryptedPrivateKey := ethKey,
      encryptedSeed := ethSeed, publicKey := ethW.publicKey }
  let btcFull : BtcWalletFull :=
    { address := btcW.address, legacyAddress := btcW.legacyAddress,
      encryptedPrivateKey := btcKey, encryptedSeed := btcSeed,
      publicKey := btcW.publicKey, wif := btcW.wif }
  let tronFull : TronWalletFull :=
    { address := tronW.address, hexAddress := tronW.hexAddress,
      encryptedPrivateKey := tronKey, encryptedSeed := tronSeed }
  return { ethereum := ethFull, bitcoin := btcFull, tron := tronFull }

/-- Projection of the in-memory wallets object onto the paths declared
in the User schema (mongoose strict mode): address, encryptedPrivateKey
and encryptedSeed per chain; publicKey, legacyAddress, wif and
hexAddress are not schema paths and are not persisted. -/
def persistWallets (w : FullWallets) : UserWallets :=
  let eth : WalletDoc :=
    { address := w.ethereum.address,
      encryptedPrivateKey := w.ethereum.encryptedPrivateKey,
      encryptedSeed := w.ethereum.encryptedSeed }
  let btc : WalletDoc :=
    { address := w.bitcoin.address,
      encryptedPrivateKey := w.bitcoin.encryptedPrivateKey,
      encryptedSeed := w.bitcoin.encryptedSeed }
  let trx : WalletDoc :=
    { address := w.tron.address,
      encryptedPrivateKey := w.tron.encryptedPrivateKey,
      encryptedSeed := w.tron.encryptedSeed }
  { ethereum := some eth, bitcoin := some btc, tron := some trx }

/-- The registration request body. -/
structure RegisterRequest where
  username : String
  securityCode : String
  hashKey : String
  deviceInfo : Option DeviceInfo
  deriving DecidableEq, Repr

/-- The registration response payload (`data` of the 201 answer): only
the user id, username, wallet addresses, flags, token, QR code and the
TOTP manual entry key — no key material fields exist in it. -/
structure RegisterPayload where
  userId : Nat
  username : String
  ethereumAddress : List Nat
  bitcoinAddress : List Nat
  tronAddress : List Nat
  twoFactorEnabled : Bool
  isActive : Bool
  token : String
  qrCodeUrl : String
  manualEntryKey : String
  deriving DecidableEq, Repr

/-- Outward result of the register controller. -/
inductive RegisterResponse where
  | missingFields
  | invalidDeviceInfo (errors : List String)
  | usernameExists
  | serverError
  | created (payload : RegisterPayload)
  deriving DecidableEq, Repr

/-- `register(req, res)`: field and device validation, username
collision check, device normalization, 2FA secret generation, wallet
generation (each key enveloped), user creation with pre-save bcrypt
hashing (`hashCred`), then the 201 payload.  Wallet-generation errors
surface as the catch-all 500.  Returns the response and the saved
document, `none` when nothing was saved. -/
def register (hashCred : String → String) (hash : String → String)
    (mk : List Nat) (salts ivs : Fin 6 → List Nat) (seed : List Nat)
    (ethW : EthWalletGen) (btcW : BtcWalletGen) (tronW : TronWalletGen)
    (twoFactorSecret : String) (userId : Nat) (token qrCodeUrl : String)
    (usernameTaken : Bool) (req : RegisterRequest) :
    RegisterResponse × Option UserDoc :=
  match req.deviceInfo with
  | none => (.missingFields, none)
  | some d =>
    if req.username = "" ∨ req.securityCode = "" ∨ req.hashKey = "" then
      (.missingFields, none)
    else if (validateDeviceInfo (some d)).isValid = false then
      (.invalidDeviceInfo (validateDeviceInfo (some d)).errors, none)
    else if usernameTaken then (.usernameExists, none)
    else
      match generateAllWallets mk salts ivs seed ethW btcW tronW with
      | .error _ => (.serverError, none)
      | .ok wallets =>
        let user : UserDoc :=
          { username := req.username
            securityCodeHash := hashCred req.securityCode
            hashKeyHash := hashCred req.hashKey
            deviceInfo := normalizeDeviceInfo hash d
            newDeviceFound := false
            pendingDeviceInfo := none
            twoFactorSecret := twoFactorSecret
            twoFactorEnabled := true
            wallets := persistWallets wallets
            platformFeeBalance := 0
            isActive := true
            isLocked := false
            lockReason := none
            lastLogin := none
            lastTwoFactorVerification := none }
        (.created
          { userId := userId
            username := user.username
            ethereumAddress := wallets.ethereum.address
            bitcoinAddress := wallets.bitcoin.address
            tronAddress := wallets.tron.address
            twoFactorEnabled := user.twoFactorEnabled
            isActive := user.isActive
            token := token
            qrCodeUrl := qrCodeUrl
            manualEntryKey := twoFactorSecret }, some user)

/-- The blob produced by a successful `encrypt` call. -/
def encBlob (mk salt iv text : List Nat) : List Nat :=
  salt ++ iv ++ gcmTag (deriveKey mk salt) (gcmEnc (deriveKey mk salt) 0 text)
    ++ gcmEnc (deriveKey mk salt) 0 text

theorem encrypt_ok (mk salt iv text : List Nat) (hmk : 32 ≤ mk.length)
    (ht : text ≠ []) :
    encrypt mk salt iv text = .ok (encBlob mk salt iv text) := by
  have hte : text.isEmpty = false := by
    cases text with
    | nil => exact absurd rfl ht
    | cons a l => rfl
  simp [encrypt, encBlob, hte, show ¬ mk.length < 32 from by omega]

/-- Every `encrypt` output has the EncryptedBlob wire shape
salt (64) ‖ iv (16) ‖ authTag (16) ‖ ciphertext. -/
theorem encBlob_shape (mk salt iv text : List Nat) :
    ∃ t c, encBlob mk salt iv text = salt ++ iv ++ t ++ c ∧
      t.length = 16 ∧ c.length = text.length :=
  ⟨_, _, rfl, natToBytes_length _ _, gcmEnc_length _ _ _⟩

/-- An `encrypt` output is never the plaintext it envelopes (it is 96
bytes longer). -/
theorem encBlob_ne (mk salt iv text : List Nat) (hsalt : salt.length = 64)
    (hiv : iv.length = 16) : encBlob mk salt iv text ≠ text := by
  intro h
  have hlen := congrArg List.length h
  simp only [encBlob, List.length_append, hsalt, hiv, natToBytes_length,
    gcmEnc_length] at hlen
  omega

/-- C3: a successful registration creates exactly three wallets
(ethereum, bitcoin, tron), each persisted with the generator's
(non-empty) address and an EncryptedBlob-shaped enveloped private key;
the persisted record never equals the plaintext key, and the returned
payload carries no plaintext key material: it is unchanged under any
change of the generated private keys (plaintext keys exist only inside
the generation step). -/
theorem register_wallets_spec
    (hashCred hash : String → String) (mk : List Nat)
    (salts ivs : Fin 6 → List Nat) (seed : List Nat)
    (ethW : EthWalletGen) (btcW : BtcWalletGen) (tronW : TronWalletGen)
    (twoFactorSecret : String) (userId : Nat) (token qrCodeUrl : String)
    (un sc hk : String) (d : DeviceInfo)
    (hu : un ≠ "") (hsc : sc ≠ "") (hhk : hk ≠ "")
    (hval : (validateDeviceInfo (some d)).isValid = true)
    (hsalts : ∀ i, (salts i).length = 64) (hivs : ∀ i, (ivs i).length = 16)
    (hmk : 32 ≤ mk.length)
    (hek : ethW.privateKey ≠ []) (hem : ethW.mnemonic ≠ [])
    (hbk : btcW.privateKey ≠ []) (htk : tronW.privateKey ≠ [])
    (hea : ethW.address ≠ []) (hba : btcW.address ≠ []) (hta : tronW.address ≠ []) :
    ∃ p user,
      register hashCred hash mk salts ivs seed ethW btcW tronW twoFactorSecret
        userId token qrCodeUrl false
        { username := un, securityCode := sc, hashKey := hk,
          deviceInfo := some d } = (.created p, some user) ∧
      (∃ weth wbtc wtron,
        user.wallets.ethereum = some weth ∧
        user.wallets.bitcoin = some wbtc ∧
        user.wallets.tron = some wtron ∧
        weth.address = ethW.address ∧ weth.address ≠ [] ∧
        wbtc.address = btcW.address ∧ wbtc.address ≠ [] ∧
        wtron.address = tronW.address ∧ wtron.address ≠ [] ∧
        (∃ t c, weth.encryptedPrivateKey = salts 0 ++ ivs 0 ++ t ++ c ∧
          (salts 0).length = 64 ∧ (ivs 0).length = 16 ∧ t.length = 16) ∧
        (∃ t c, wbtc.encryptedPrivateKey = salts 2 ++ ivs 2 ++ t ++ c ∧
          (salts 2).length = 64 ∧ (ivs 2).length = 16 ∧ t.length = 16) ∧
        (∃ t c, wtron.encryptedPrivateKey = salts 4 ++ ivs 4 ++ t ++ c ∧
          (salts 4).length = 64 ∧ (ivs 4).length = 16 ∧ t.length = 16) ∧
        weth.encryptedPrivateKey ≠ ethW.privateKey ∧
        wbtc.encryptedPrivateKey ≠ btcW.privateKey ∧
        wtron.encryptedPrivateKey ≠ tronW.privateKey) ∧
      (∀ ethK2 mn2 btcK2 wif2 tronK2, ethK2 ≠ [] → mn2 ≠ [] → btcK2 ≠ [] →
        tronK2 ≠ [] →
        ∃ u2, register hashCred hash mk salts ivs seed
          { ethW with privateKey := ethK2, mnemonic := mn2 }
          { btcW with privateKey := btcK2, wif := wif2 }
          { tronW with privateKey := tronK2 }
          twoFactorSecret userId token qrCodeUrl false
          { username := un, securityCode := sc, hashKey := hk,
            deviceInfo := some d } = (.created p, some u2)) := by
  have hgen : ∀ (e : EthWalletGen) (b : BtcWalletGen) (t : TronWalletGen),
      e.privateKey ≠ [] → e.mnemonic ≠ [] → b.privateKey ≠ [] → t.privateKey ≠ [] →
      generateAllWallets mk salts ivs seed e b t = .ok
        { ethereum :=
            { address := e.address
              encryptedPrivateKey := encBlob mk (salts 0) (ivs 0) e.privateKey
              encryptedSeed := encBlob mk (salts 1) (ivs 1) e.mnemonic
              publicKey := e.publicKey }
          bitcoin :=
            { address := b.address
              legacyAddress := b.legacyAddress
              encryptedPrivateKey := encBlob mk (salts 2) (ivs 2) b.privateKey
              encryptedSeed := encBlob mk (salts 3) (ivs 3) (seed ++ btcSuffix)
              publicKey := b.publicKey
              wif := b.wif }
          tron :=
            { address := t.address
              hexAddress := t.hexAddress
              encryptedPrivateKey := encBlob mk (salts 4) (ivs 4) t.privateKey
              encryptedSeed := encBlob mk (salts 5) (ivs 5) (seed ++ tronSuffix) } } := by
    intro e b t he1 he2 hb1 ht1
    have hbs : seed ++ btcSuffix ≠ [] := by simp [btcSuffix]
    have hts : seed ++ tronSuffix ≠ [] := by simp [tronSuffix]
    unfold generateAllWallets
    rw [encrypt_ok mk (salts 0) (ivs 0) e.privateKey hmk he1,
      encrypt_ok mk (salts 1) (ivs 1) e.mnemonic hmk he2,
      encrypt_ok mk (salts 2) (ivs 2) b.privateKey hmk hb1,
      encrypt_ok mk (salts 3) (ivs 3) (seed ++ btcSuffix) hmk hbs,
      encrypt_ok mk (salts 4) (ivs 4) t.privateKey hmk ht1,
      encrypt_ok mk (salts 5) (ivs 5) (seed ++ tronSuffix) hmk hts]
    rfl
  have hreg : ∀ (e : EthWalletGen) (b : BtcWalletGen) (t : TronWalletGen),
      e.privateKey ≠ [] → e.mnemonic ≠ [] → b.privateKey ≠ [] → t.privateKey ≠ [] →
      register hashCred hash mk salts ivs seed e b t twoFactorSecret
        userId token qrCodeUrl false
        { username := un, securityCode := sc, hashKey := hk,
          deviceInfo := some d } =
      (.created
        { userId := userId
          username := un
          ethereumAddress := e.address
          bitcoinAddress := b.address
          tronAddress := t.address
          twoFactorEnabled := true
          isActive := true
          token := token
          qrCodeUrl := qrCodeUrl
          manualEntryKey := twoFactorSecret },
       some
        { username := un
          securityCodeHash := hashCred sc
          hashKeyHash := hashCred hk
          deviceInfo := normalizeDeviceInfo hash d
          newDeviceFound := false
          pendingDeviceInfo := none
          twoFactorSecret := twoFactorSecret
          twoFactorEnabled := true
          wallets :=
            { ethereum := some
                { address := e.address
                  encryptedPrivateKey := encBlob mk (salts 0) (ivs 0) e.privateKey
                  encryptedSeed := encBlob mk (salts 1) (ivs 1) e.mnemonic }
              bitcoin := some
                { address := b.address
                  encryptedPrivateKey := encBlob mk (salts 2) (ivs 2) b.privateKey
                  encryptedSeed := encBlob mk (salts 3) (ivs 3) (seed ++ btcSuffix) }
              tron := some
                { address := t.address
                  encryptedPrivateKey := encBlob mk (salts 4) (ivs 4) t.privateKey
                  encryptedSeed := encBlob mk (salts 5) (ivs 5) (seed ++ tronSuffix) } }
          platformFeeBalance := 0
          isActive := true
          isLocked := false
          lockReason := none
          lastLogin := none
          lastTwoFactorVerification := none }) := by
    intro e b t he1 he2 hb1 ht1
    unfold register
    simp only
    rw [if_neg (by push_neg; exact ⟨hu, hsc, hhk⟩)]
    rw [if_neg (by rw [hval]; simp)]
    rw [if_neg (by simp)]
    rw [hgen e b t he1 he2 hb1 ht1]
    rfl
  refine ⟨_, _, hreg ethW btcW tronW hek hem hbk htk, ⟨_, _, _, rfl, rfl, rfl,
    rfl, hea, rfl, hba, rfl, hta, ?_, ?_, ?_, ?_, ?_, ?_⟩, ?_⟩
  · obtain ⟨t, c, he, hts, hcs⟩ := encBlob_shape mk (salts 0) (ivs 0) ethW.privateKey
    exact ⟨t, c, he, hsalts 0, hivs 0, hts⟩
  · obtain ⟨t, c, he, hts, hcs⟩ := encBlob_shape mk (salts 2) (ivs 2) btcW.privateKey
    exact ⟨t, c, he, hsalts 2, hivs 2, hts⟩
  · obtain ⟨t, c, he, hts, hcs⟩ := encBlob_shape mk (salts 4) (ivs 4) tronW.privateKey
    exact ⟨t, c, he, hsalts 4, hivs 4, hts⟩
  · exact encBlob_ne mk (salts 0) (ivs 0) ethW.privateKey (hsalts 0) (hivs 0)
  · exact encBlob_ne mk (salts 2) (ivs 2) btcW.privateKey (hsalts 2) (hivs 2)
  · exact encBlob_ne mk (salts 4) (ivs 4) tronW.privateKey (hsalts 4) (hivs 4)
  · intro ethK2 mn2 btcK2 wif2 tronK2 h1 h2 h3 h4
    exact ⟨_, hreg { ethW with privateKey := ethK2, mnemonic := mn2 }
      { btcW with privateKey := btcK2, wif := wif2 }
      { tronW with privateKey := tronK2 } h1 h2 h3 h4⟩

def saltsW6 : Fin 6 → List Nat := fun i => List.replicate 64 (i.val + 1)

def ivsW6 : Fin 6 → List Nat := fun i => List.replicate 16 i.val

def seedW : List Nat := [7, 7]

def ethWW : EthWalletGen :=
  { address := [10], privateKey := [11], publicKey := [12], mnemonic := [13] }

def btcWW : BtcWalletGen :=
  { address := [20], legacyAddress := [21], privateKey := [22], publicKey := [23],
    wif := [24] }

def tronWW : TronWalletGen :=
  { address := [30], hexAddress := [31], privateKey := [32] }

/-- Witness for C3: a concrete successful registration yields all three
persisted wallets. -/
theorem register_wallets_spec_witness :
    ∃ p user,
      register (fun s => s ++ "#h") hashW mkW saltsW6 ivsW6 seedW ethWW btcWW
        tronWW "T1" 1 "tok" "qr" false
        { username := "alice", securityCode := "sc", hashKey := "hk",
          deviceInfo := some devW } = (.created p, some user) ∧
      user.wallets.ethereum ≠ none ∧ user.wallets.bitcoin ≠ none ∧
      user.wallets.tron ≠ none := by
  obtain ⟨p, user, hred, ⟨weth, wbtc, wtron, he, hb, ht, -⟩, -⟩ :=
    register_wallets_spec (fun s => s ++ "#h") hashW mkW saltsW6 ivsW6 seedW
      ethWW btcWW tronWW "T1" 1 "tok" "qr" "alice" "sc" "hk" devW
      (by decide) (by decide) (by decide) (by decide) (by decide) (by decide)
      (by decide) (by decide) (by decide) (by decide) (by decide)
      (by decide) (by decide) (by decide)
  refine ⟨p, user, hred, ?_, ?_, ?_⟩
  · rw [he]; exact fun h => Option.noConfusion h
  · rw [hb]; exact fun h => Option.noConfusion h
  · rw [ht]; exact fun h => Option.noConfusion h

/-! ## Bitcoin adapter (authRoutes.js `getBitcoinBalance` lines
1056-1089, `sendBitcoinTransaction` lines 395-506)

The esplora-style REST responses enter the model as data; UTXOs are
their satoshi values (the code selects by `utxo.value`). -/

/-- The chain_stats / mempool_stats object of an esplora address
response. -/
structure EsploraStats where
  funded_txo_sum : Nat
  spent_txo_sum : Nat
  tx_count : Nat
  deriving DecidableEq, Repr

/-- An esplora `/address/:addr` response body. -/
structure EsploraAddressData where
  chain_stats : EsploraStats
  mempool_stats : EsploraStats
  deriving DecidableEq, Repr

/-- The balance object produced by getBitcoinBalance. -/
structure BtcBalance where
  balance : Rat
  unconfirmedBalance : Rat
  txCount : Nat
  symbol : String
  decimals : Nat
  chain : String
  deriving DecidableEq, Repr

/-- `getBitcoinBalance(address)`: divides the confirmed funded total and
the mempool funded total by 1e8 (spent totals are not subtracted); an
HTTP 404 (address not found) yields a zero balance, any other failure
propagates as an error.  The argument is the HTTP outcome (`.error
status` for a failed request). -/
def getBitcoinBalance (resp : Except Nat EsploraAddressData) :
    Except String BtcBalance :=
  match resp with
  | .ok data =>
    .ok { balance := (data.chain_stats.funded_txo_sum : Rat) / 100000000
          unconfirmedBalance := (data.mempool_stats.funded_txo_sum : Rat) / 100000000
          txCount := data.chain_stats.tx_count
          symbol := "BTC", decimals := 8, chain := "bitcoin" }
  | .error status =>
    if status = 404 then
      .ok { balance := 0, unconfirmedBalance := 0, txCount := 0,
            symbol := "BTC", decimals := 8, chain := "bitcoin" }
    else .error "Failed to get Bitcoin balance"

def esploraW : EsploraAddressData :=
  { chain_stats := { funded_txo_sum := 100, spent_txo_sum := 40, tx_count := 5 }
    mempool_stats := { funded_txo_sum := 10, spent_txo_sum := 0, tx_count := 1 } }

/-- C8 counterexample: on an address with confirmed funded 100 sat,
confirmed spent 40 sat and unconfirmed funded 10 sat, the claimed
balance (confirmed + unconfirmed funded minus spent = 70 sat) differs
from what the code returns (the confirmed funded total alone, 100 sat,
with the unconfirmed funded total reported separately): spent totals
are never subtracted and the two funded totals are never summed. -/
theorem getBitcoinBalance_counterexample :
    ∃ b, getBitcoinBalance (.ok esploraW) = .ok b ∧
      b.balance = (100 : Rat) / 100000000 ∧
      b.unconfirmedBalance = (10 : Rat) / 100000000 ∧
      ((esploraW.chain_stats.funded_txo_sum : Rat) +
        (esploraW.mempool_stats.funded_txo_sum : Rat) -
        (esploraW.chain_stats.spent_txo_sum : Rat) -
        (esploraW.mempool_stats.spent_txo_sum : Rat)) / 100000000
        = (70 : Rat) / 100000000 ∧
      b.balance ≠ (70 : Rat) / 100000000 := by
  refine ⟨_, rfl, rfl, rfl, by norm_num [esploraW], by norm_num [esploraW]⟩

/-- C8 amended: the returned balance is the confirmed funded total in
whole-coin units and the unconfirmed (mempool) funded total is reported
separately, with the spent totals playing no role at all (the result is
invariant under changing them); an address-not-found (HTTP 404)
response yields a zero balance rather than an error, and any other
failure is an error. -/
theorem getBitcoinBalance_spec (data d2 : EsploraAddressData) (status : Nat) :
    (getBitcoinBalance (.ok data) = .ok
      { balance := (data.chain_stats.funded_txo_sum : Rat) / 100000000
        unconfirmedBalance := (data.mempool_stats.funded_txo_sum : Rat) / 100000000
        txCount := data.chain_stats.tx_count
        symbol := "BTC", decimals := 8, chain := "bitcoin" }) ∧
    (data.chain_stats.funded_txo_sum = d2.chain_stats.funded_txo_sum →
      data.mempool_stats.funded_txo_sum = d2.mempool_stats.funded_txo_sum →
      data.chain_stats.tx_count = d2.chain_stats.tx_count →
      getBitcoinBalance (.ok data) = getBitcoinBalance (.ok d2)) ∧
    (getBitcoinBalance (.error 404) = .ok
      { balance := 0, unconfirmedBalance := 0, txCount := 0,
        symbol := "BTC", decimals := 8, chain := "bitcoin" }) ∧
    (status ≠ 404 →
      getBitcoinBalance (.error status) = .error "Failed to get Bitcoin balance") := by
  refine ⟨rfl, ?_, rfl, ?_⟩
  · intro h1 h2 h3
    simp only [getBitcoinBalance, h1, h2, h3]
  · intro h
    simp only [getBitcoinBalance, if_neg h]

/-- Witness for C8 (amended): concrete evaluation of the three
branches, including spent-total invariance. -/
theorem getBitcoinBalance_spec_witness :
    (getBitcoinBalance (.ok esploraW) = .ok
      { balance := (esploraW.chain_stats.funded_txo_sum : Rat) / 100000000
        unconfirmedBalance := (esploraW.mempool_stats.funded_txo_sum : Rat) / 100000000
        txCount := esploraW.chain_stats.tx_count
        symbol := "BTC", decimals := 8, chain := "bitcoin" }) ∧
    getBitcoinBalance (.ok esploraW) = getBitcoinBalance
      (.ok { esploraW with
        chain_stats := { esploraW.chain_stats with spent_txo_sum := 0 } }) ∧
    getBitcoinBalance (.error 500) = .error "Failed to get Bitcoin balance" := by
  obtain ⟨h1, h2, h3, h4⟩ := getBitcoinBalance_spec esploraW
    { esploraW with chain_stats := { esploraW.chain_stats with spent_txo_sum := 0 } }
    500
  exact ⟨h1, h2 rfl rfl rfl, h4 (by decide)⟩

/-- The P2WPKH virtual-size fee heuristic of sendBitcoinTransaction:
`(inputCount * 148 + 2 * 34 + 10) * feeRate`. -/
def btcFee (inputCount feeRate : Nat) : Nat :=
  (inputCount * 148 + 2 * 34 + 10) * feeRate

/-- The UTXO-selection loop: starting from accumulated input `tot`
over `k` already-selected UTXOs, consume values until the accumulated
input covers amount + fee (the fee recomputed after each UTXO is
added); returns the final selected count. -/
def selCount (amountSat feeRate : Nat) : List Nat → Nat → Nat → Nat
  | [], _, k => k
  | v :: rest, tot, k =>
    if amountSat + btcFee (k + 1) feeRate ≤ tot + v then k + 1
    else selCount amountSat feeRate rest (tot + v) (k + 1)

/-- `utxos.sort((a, b) => b.value - a.value)`: descending order. -/
def sortDesc (l : List Nat) : List Nat := List.insertionSort (· ≥ ·) l

/-- A transaction output added via `psbt.addOutput`. -/
structure BtcTxOutput where
  address : String
  value : Int
  deriving DecidableEq, Repr

/-- The constructed Bitcoin transaction (inputs are the selected UTXO
values, signed individually before broadcast). -/
structure BtcTxResult where
  inputs : List Nat
  outputs : List BtcTxOutput
  fee : Nat
  deriving DecidableEq, Repr

/-- Errors of sendBitcoinTransaction. -/
inductive BtcSendError where
  | noUtxos
  | insufficientFunds
  deriving DecidableEq, Repr

/-- `sendBitcoinTransaction(params)`: fail on an empty UTXO set, sort
by descending value, select until amount + fee is covered, recompute
the final fee, reject when even the consumed selection cannot cover
amount + fee, add the recipient output and a change output back to the
sender only when the change exceeds the 546-satoshi dust limit. -/
def sendBitcoinTransaction (amountSat feeRate : Nat)
    (senderAddress toAddress : String) (utxos : List Nat) :
    Except BtcSendError BtcTxResult :=
  if utxos.isEmpty then .error .noUtxos
  else
    let s := sortDesc utxos
    let k := selCount amountSat feeRate s 0 0
    let sel := s.take k
    let tot := sel.sum
    let fee := btcFee k feeRate
    let change : Int := (tot : Int) - amountSat - fee
    if tot < amountSat + fee then .error .insufficientFunds
    else
      .ok { inputs := sel
            outputs := { address := toAddress, value := (amountSat : Int) } ::
              (if 546 < change then
                [{ address := senderAddress, value := change }] else [])
            fee := fee }

/-- Loop characterization of the UTXO selection: bounds on the selected
count, progress on a non-empty list, minimality (no strictly shorter
nonempty extension of the already-selected prefix covers amount + fee),
cover at an early stop, and exhaustion when no extension covers. -/
theorem selCount_char (amountSat feeRate : Nat) : ∀ (rest : List Nat) (tot k : Nat),
    (k ≤ selCount amountSat feeRate rest tot k) ∧
    (selCount amountSat feeRate rest tot k - k ≤ rest.length) ∧
    (rest ≠ [] → k + 1 ≤ selCount amountSat feeRate rest tot k) ∧
    (∀ j, 1 ≤ j → j < selCount amountSat feeRate rest tot k - k →
      ¬(amountSat + btcFee (k + j) feeRate ≤ tot + (rest.take j).sum)) ∧
    (selCount amountSat feeRate rest tot k - k < rest.length →
      amountSat + btcFee (selCount amountSat feeRate rest tot k) feeRate ≤
        tot + (rest.take (selCount amountSat feeRate rest tot k - k)).sum) ∧
    ((∀ j, 1 ≤ j → j ≤ rest.length →
        ¬(amountSat + btcFee (k + j) feeRate ≤ tot + (rest.take j).sum)) →
      selCount amountSat feeRate rest tot k = k + rest.length) := by
  intro rest
  induction rest with
  | nil =>
    intro tot k
    refine ⟨Nat.le_refl _, by simp [selCount], by simp, ?_, ?_, ?_⟩
    · intro j h1 h2
      exfalso
      simp only [selCount] at h2
      omega
    · intro h
      exfalso
      simp only [selCount, List.length_nil] at h
      omega
    · intro _
      simp [selCount]
  | cons v rest ih =>
    intro tot k
    by_cases hbr : amountSat + btcFee (k + 1) feeRate ≤ tot + v
    · have hm : selCount amountSat feeRate (v :: rest) tot k = k + 1 := by
        simp only [selCount]
        rw [if_pos hbr]
      refine ⟨by omega, by simp [hm], fun _ => by omega, ?_, ?_, ?_⟩
      · intro j h1 h2
        rw [hm] at h2
        omega
      · intro _
        rw [hm]
        simpa using hbr
      · intro h
        exact absurd (by simpa using hbr) (h 1 (by omega) (by simp))
    · have hm : selCount amountSat feeRate (v :: rest) tot k =
          selCount amountSat feeRate rest (tot + v) (k + 1) := by
        simp only [selCount]
        rw [if_neg hbr]
      obtain ⟨ih1, ih2, ih3, ih4, ih5, ih6⟩ := ih (tot + v) (k + 1)
      rw [hm]
      set m := selCount amountSat feeRate rest (tot + v) (k + 1) with hmdef
      refine ⟨by omega, by simp; omega, fun _ => by omega, ?_, ?_, ?_⟩
      · intro j h1 h2
        obtain ⟨j2, rfl⟩ : ∃ j2, j = j2 + 1 := ⟨j - 1, by omega⟩
        rcases Nat.eq_zero_or_pos j2 with hj0 | hj1
        · subst hj0
          simpa using hbr
        · have := ih4 j2 hj1 (by omega)
          simpa [List.take_succ_cons, Nat.add_assoc, Nat.add_comm,
            Nat.add_left_comm] using this
      · intro hlt
        have hm1 : 1 ≤ m - k := by omega
        have := ih5 (by simp at hlt ⊢; omega)
        obtain ⟨j2, hj2⟩ : ∃ j2, m - k = j2 + 1 := ⟨m - k - 1, by omega⟩
        rw [hj2]
        have hj2b : m - (k + 1) = j2 := by omega
        rw [hj2b] at this
        simpa [List.take_succ_cons, Nat.add_assoc, Nat.add_comm,
          Nat.add_left_comm] using this
      · intro h
        have hpre : ∀ j, 1 ≤ j → j ≤ rest.length →
            ¬(amountSat + btcFee (k + 1 + j) feeRate ≤
              (tot + v) + (rest.take j).sum) := by
          intro j h1 h2
          have := h (j + 1) (by omega) (by simp; omega)
          simpa [List.take_succ_cons, Nat.add_assoc, Nat.add_comm,
            Nat.add_left_comm] using this
        have := ih6 hpre
        simp only [List.length_cons]
        omega

/-- The successful transaction object constructed by
sendBitcoinTransaction for a selected count `k` over the sorted list
`s`: recipient output first, change output back to the sender only
above the dust limit. -/
def btcOk (amountSat feeRate : Nat) (senderAddress toAddress : String)
    (s : List Nat) (k : Nat) : BtcTxResult :=
  { inputs := s.take k
    outputs := { address := toAddress, value := (amountSat : Int) } ::
      (if 546 < ((s.take k).sum : Int) - amountSat - btcFee k feeRate then
        [{ address := senderAddress,
           value := ((s.take k).sum : Int) - amountSat - btcFee k feeRate }]
       else [])
    fee := btcFee k feeRate }

/-- C7: the selection operates on the descending-value-first ordering
of the UTXO set; a successful send selects the minimal-by-count
nonempty sorted prefix whose total covers amount + fee(count), with the
fee `(count*148 + 2*34 + 10)*feeRate` recomputed after each added UTXO;
the send is rejected as insufficient funds exactly when no prefix (up
to and including the full UTXO set) covers amount + fee at its own
count; and a change output back to the sender is added iff the change
`total - amount - fee` exceeds the 546-satoshi dust threshold. -/
theorem sendBitcoinTransaction_spec
    (amountSat feeRate : Nat) (senderAddress toAddress : String) (utxos : List Nat)
    (hne : utxos ≠ []) :
    (sortDesc utxos).Sorted (· ≥ ·) ∧ (sortDesc utxos).Perm utxos ∧
    (∀ t, sendBitcoinTransaction amountSat feeRate senderAddress toAddress utxos = .ok t →
      ∃ k, 1 ≤ k ∧ k ≤ (sortDesc utxos).length ∧
        t.inputs = (sortDesc utxos).take k ∧
        t.fee = btcFee k feeRate ∧
        amountSat + btcFee k feeRate ≤ ((sortDesc utxos).take k).sum ∧
        (∀ j, 1 ≤ j → j < k →
          ¬(amountSat + btcFee j feeRate ≤ ((sortDesc utxos).take j).sum)) ∧
        (546 < (((sortDesc utxos).take k).sum : Int) - amountSat - btcFee k feeRate →
          t.outputs = [{ address := toAddress, value := (amountSat : Int) },
            { address := senderAddress, value := (((sortDesc utxos).take k).sum : Int)
              - amountSat - btcFee k feeRate }]) ∧
        (¬ 546 < (((sortDesc utxos).take k).sum : Int) - amountSat - btcFee k feeRate →
          t.outputs = [{ address := toAddress, value := (amountSat : Int) }])) ∧
    (sendBitcoinTransaction amountSat feeRate senderAddress toAddress utxos
        = .error .insufficientFunds ↔
      ∀ j, 1 ≤ j → j ≤ (sortDesc utxos).length →
        ¬(amountSat + btcFee j feeRate ≤ ((sortDesc utxos).take j).sum)) := by
  have hempty : utxos.isEmpty = false := by
    cases utxos with
    | nil => exact absurd rfl hne
    | cons a l => rfl
  have hsort : (sortDesc utxos).Sorted (· ≥ ·) := List.sorted_insertionSort _ _
  have hperm : (sortDesc utxos).Perm utxos := List.perm_insertionSort _ _
  have hslen : sortDesc utxos ≠ [] := by
    intro h
    apply hne
    have h2 : utxos.Perm ([] : List Nat) := by rw [← h]; exact hperm.symm
    exact List.Perm.eq_nil h2
  obtain ⟨c1, c2, c3, c4, c5, c6⟩ := selCount_char amountSat feeRate (sortDesc utxos) 0 0
  have hm1 : 1 ≤ selCount amountSat feeRate (sortDesc utxos) 0 0 := c3 hslen
  have hred : sendBitcoinTransaction amountSat feeRate senderAddress toAddress utxos =
      (if ((sortDesc utxos).take (selCount amountSat feeRate (sortDesc utxos) 0 0)).sum
          < amountSat + btcFee (selCount amountSat feeRate (sortDesc utxos) 0 0) feeRate
       then .error .insufficientFunds
       else .ok (btcOk amountSat feeRate senderAddress toAddress (sortDesc utxos)
          (selCount amountSat feeRate (sortDesc utxos) 0 0))) := by
    simp only [sendBitcoinTransaction, hempty, Bool.false_eq_true, if_false]
    rfl
  refine ⟨hsort, hperm, ?_, ?_⟩
  · intro t ht
    rw [hred] at ht
    by_cases hc : ((sortDesc utxos).take (selCount amountSat feeRate (sortDesc utxos) 0 0)).sum
        < amountSat + btcFee (selCount amountSat feeRate (sortDesc utxos) 0 0) feeRate
    · rw [if_pos hc] at ht
      exact absurd ht (by simp)
    · rw [if_neg hc] at ht
      simp only [Except.ok.injEq] at ht
      subst ht
      refine ⟨selCount amountSat feeRate (sortDesc utxos) 0 0, hm1, by omega, rfl, rfl,
        by omega, ?_, ?_, ?_⟩
      · intro j h1 h2
        have := c4 j h1 (by omega)
        simpa using this
      · intro hch
        simp only [btcOk, if_pos hch]
      · intro hch
        simp only [btcOk, if_neg hch]
  · constructor
    · intro herr
      rw [hred] at herr
      by_cases hc : ((sortDesc utxos).take (selCount amountSat feeRate (sortDesc utxos) 0 0)).sum
          < amountSat + btcFee (selCount amountSat feeRate (sortDesc utxos) 0 0) feeRate
      · have hmn : selCount amountSat feeRate (sortDesc utxos) 0 0 = (sortDesc utxos).length := by
          by_contra hlt
          have hlt2 : selCount amountSat feeRate (sortDesc utxos) 0 0 - 0 < (sortDesc utxos).length := by
            omega
          have := c5 hlt2
          simp only [Nat.sub_zero, Nat.zero_add] at this
          omega
        intro j h1 h2
        rcases Nat.lt_or_ge j (selCount amountSat feeRate (sortDesc utxos) 0 0) with hj | hj
        · have := c4 j h1 (by omega)
          simpa using this
        · have hje : j = selCount amountSat feeRate (sortDesc utxos) 0 0 := by omega
          subst hje
          omega
      · rw [if_neg hc] at herr
        exact absurd herr (by simp)
    · intro hall
      have hmn : selCount amountSat feeRate (sortDesc utxos) 0 0 =
          (sortDesc utxos).length := by
        have := c6 ?pre
        · simpa using this
        case pre =>
          intro j h1 h2
          have := hall j h1 h2
          simpa using this
      rw [hred, if_pos ?cond]
      case cond =>
        rw [hmn, List.take_length]
        have hlen1 : 1 ≤ (sortDesc utxos).length := by
          cases hcase : sortDesc utxos with
          | nil => exact absurd hcase hslen
          | cons a l => simp [hcase]
        have := hall (sortDesc utxos).length hlen1 (Nat.le_refl _)
        rw [List.take_length] at this
        omega

/-- Witness for C7: a concrete send of 1000 sat at fee rate 1 over
UTXOs {5000, 3000} succeeds with a minimal-prefix selection. -/
theorem sendBitcoinTransaction_spec_witness :
    ∃ t, sendBitcoinTransaction 1000 1 "snd" "rcp" [5000, 3000] = Except.ok t ∧
      ∃ k, 1 ≤ k ∧ k ≤ (sortDesc [5000, 3000]).length ∧
        t.inputs = (sortDesc [5000, 3000]).take k ∧
        t.fee = btcFee k 1 ∧
        1000 + btcFee k 1 ≤ ((sortDesc [5000, 3000]).take k).sum := by
  have hok : sendBitcoinTransaction 1000 1 "snd" "rcp" [5000, 3000] =
      .ok (btcOk 1000 1 "snd" "rcp" (sortDesc [5000, 3000]) 1) := rfl
  obtain ⟨-, -, hsucc, -⟩ :=
    sendBitcoinTransaction_spec 1000 1 "snd" "rcp" [5000, 3000] (by decide)
  obtain ⟨k, h1, h2, h3, h4, h5, -⟩ := hsucc _ hok
  exact ⟨_, hok, k, h1, h2, h3, h4, h5⟩
